import Mathlib

/-!
Verification of the hierarchical configuration / drift-evaluation core of the
Thanos repository, against its natural-language specification.

The Python code works on dynamic JSON-like trees.  We embed those trees as the
inductive type `Value` below: Python `None` is `Value.vnull`, and every Python
function that can return `None` for "absent" is embedded as a function
returning `Value.vnull` there, exactly as in Python where `None` is an
ordinary value.  Python `dict`s are association lists in insertion order with
(by construction in Python) unique keys; where a proof needs uniqueness it
takes an explicit well-formedness hypothesis `wfDict`, which holds of every
tree that can come from a real Python `dict`.  Python floats are not modelled
(no claim mentions them); ints are `Int`.

Functions raising exceptions in Python are embedded with `Option` results
(`none` = the call raises).  Mutating functions are embedded as functions
returning the updated tree; `deep_merge` deep-copies its inputs in Python, so
value semantics coincide.
-/

inductive Value where
  | vnull : Value
  | vbool : Bool → Value
  | vint : Int → Value
  | vstr : String → Value
  | vlist : List Value → Value
  | vdict : List (String × Value) → Value

mutual

/-- Structural equality of trees: Python `==` on JSON-like values. -/
def beqV : Value → Value → Bool
  | .vnull, .vnull => true
  | .vbool a, .vbool b => a == b
  | .vint a, .vint b => a == b
  | .vstr a, .vstr b => a == b
  | .vlist a, .vlist b => beqL a b
  | .vdict a, .vdict b => beqD a b
  | _, _ => false

def beqL : List Value → List Value → Bool
  | [], [] => true
  | a :: as, b :: bs => beqV a b && beqL as bs
  | _, _ => false

def beqD : List (String × Value) → List (String × Value) → Bool
  | [], [] => true
  | (k1, v1) :: as, (k2, v2) :: bs => k1 == k2 && beqV v1 v2 && beqD as bs
  | _, _ => false

end

mutual

def beqV_refl : ∀ a, beqV a a = true
  | .vnull => rfl
  | .vbool b => by simp [beqV]
  | .vint n => by simp [beqV]
  | .vstr s => by simp [beqV]
  | .vlist xs => by simp [beqV, beqL_refl xs]
  | .vdict d => by simp [beqV, beqD_refl d]

def beqL_refl : ∀ xs, beqL xs xs = true
  | [] => rfl
  | x :: r => by simp [beqL, beqV_refl x, beqL_refl r]

def beqD_refl : ∀ d, beqD d d = true
  | [] => rfl
  | (k, v) :: r => by simp [beqD, beqV_refl v, beqD_refl r]

end

def beqV_sound : ∀ (a b : Value), beqV a b = true → a = b := by
  have main : ∀ (n : Nat) (a b : Value), sizeOf a ≤ n → beqV a b = true → a = b := by
    intro n
    induction n using Nat.strong_induction_on with
    | _ n ih =>
      intro a b hsize h
      cases a <;> cases b <;> simp only [beqV] at h <;> try simp_all
      case vlist.vlist xs ys =>
        have hlist : ∀ (xs ys : List Value), sizeOf xs < n → beqL xs ys = true → xs = ys := by
          intro xs
          induction xs with
          | nil => intro ys _ h; cases ys with
            | nil => rfl
            | cons y t => simp [beqL] at h
          | cons x t iht =>
            intro ys hs h
            cases ys with
            | nil => simp [beqL] at h
            | cons y t2 =>
              simp only [beqL, Bool.and_eq_true] at h
              have hx : x = y := by
                have hxlt : sizeOf x < n := by
                  have : sizeOf x < sizeOf (x :: t) := by simp <;> omega
                  omega
                exact ih (sizeOf x) hxlt x y le_rfl h.1
              have ht : t = t2 := by
                apply iht _ _ h.2
                have : sizeOf t < sizeOf (x :: t) := by simp <;> omega
                omega
              rw [hx, ht]
        have : sizeOf xs < n := by
          have : sizeOf xs < sizeOf (Value.vlist xs) := by simp <;> omega
          omega
        exact hlist xs ys this h
      case vdict.vdict d1 d2 =>
        have hdict : ∀ (d1 d2 : List (String × Value)), sizeOf d1 < n →
            beqD d1 d2 = true → d1 = d2 := by
          intro d1
          induction d1 with
          | nil => intro d2 _ h; cases d2 with
            | nil => rfl
            | cons y t => simp [beqD] at h
          | cons x t iht =>
            intro d2 hs h
            cases d2 with
            | nil =>
              obtain ⟨k, v⟩ := x
              simp [beqD] at h
            | cons y t2 =>
              obtain ⟨k1, v1⟩ := x
              obtain ⟨k2, v2⟩ := y
              simp only [beqD, Bool.and_eq_true, beq_iff_eq] at h
              have hv : v1 = v2 := by
                have hvlt : sizeOf v1 < n := by
                  have : sizeOf v1 < sizeOf ((k1, v1) :: t) := by simp <;> omega
                  omega
                exact ih (sizeOf v1) hvlt v1 v2 le_rfl h.1.2
              have ht : t = t2 := by
                apply iht _ _ h.2
                have : sizeOf t < sizeOf ((k1, v1) :: t) := by simp <;> omega
                omega
              rw [h.1.1, hv, ht]
        have : sizeOf d1 < n := by
          have : sizeOf d1 < sizeOf (Value.vdict d1) := by simp <;> omega
          omega
        exact hdict d1 d2 this h
  exact fun a b => main (sizeOf a) a b le_rfl

instance : DecidableEq Value := fun a b =>
  decidable_of_iff (beqV a b = true) ⟨beqV_sound a b, by rintro rfl; exact beqV_refl a⟩

namespace Value

/-- Python `isinstance(v, dict)`. -/
def isDict : Value → Bool
  | vdict _ => true
  | _ => false

/-- Python `isinstance(v, list)`. -/
def isList : Value → Bool
  | vlist _ => true
  | _ => false

/-- Python `isinstance(v, str)`. -/
def isStr : Value → Bool
  | vstr _ => true
  | _ => false

end Value

open Value

/-- Python `d[k]` / `k in d` combined: first binding of `k` in the
association list (a Python dict has at most one). -/
def dlookup : List (String × Value) → String → Option Value
  | [], _ => none
  | (k', v') :: rest, k => if k' = k then some v' else dlookup rest k

/-- Python `d[k] = v`: replace the binding in place if the key is present
(keeping its position, as Python dicts do), else append it at the end. -/
def dset : List (String × Value) → String → Value → List (String × Value)
  | [], k, v => [(k, v)]
  | (k', v') :: rest, k, v =>
    if k' = k then (k, v) :: rest else (k', v') :: dset rest k v

/-!
Python string conversion.  `detect_conflicts` compares values by `str(v)`.
We reproduce CPython `str`/`repr` for the JSON-like domain: `str` of a string
is the string itself; everything else prints as its `repr`, with containers
printing their elements by `repr` (strings quoted, `", "` separators, dict
entries as `'key': value`).  Simplification, documented: `repr` of a string
escapes only the backslash and the chosen quote character (CPython also
escapes control characters, which no configuration value here contains), and
the quote is chosen by CPython's rule (single quotes unless the string
contains a single quote and no double quote).
-/

/-- Decimal digit character. -/
def digitChar : Nat → Char
  | 0 => '0'
  | 1 => '1'
  | 2 => '2'
  | 3 => '3'
  | 4 => '4'
  | 5 => '5'
  | 6 => '6'
  | 7 => '7'
  | 8 => '8'
  | _ => '9'

/-- Decimal digits, fueled so that the definition is structurally recursive
(the fuel is always sufficient: dividing by 10 reaches a one-digit number in
fewer than `n` steps). -/
def natCharsF : Nat → Nat → List Char
  | 0, _ => []
  | fuel + 1, n =>
    if n < 10 then [digitChar n] else natCharsF fuel (n / 10) ++ [digitChar (n % 10)]

/-- Decimal digits of a natural number, most significant first. -/
def natChars (n : Nat) : List Char := natCharsF (n + 1) n

/-- Python `str` of an int. -/
def intChars (n : Int) : List Char :=
  if n < 0 then '-' :: natChars n.natAbs else natChars n.toNat

/-- Backslash-escape the backslash and the quote character `q`. -/
def escChars (q : Char) : List Char → List Char
  | [] => []
  | c :: rest =>
    if c = '\\' ∨ c = q then '\\' :: c :: escChars q rest else c :: escChars q rest

/-- Python `repr` of a string: quote choice per CPython, then escape. -/
def quoteChars (s : List Char) : List Char :=
  if '\'' ∈ s ∧ '"' ∉ s then '"' :: escChars '"' s ++ ['"']
  else '\'' :: escChars '\'' s ++ ['\'']

mutual

/-- Python `repr` of a value, as a character list. -/
def reprChars : Value → List Char
  | .vnull => ['N', 'o', 'n', 'e']
  | .vbool true => ['T', 'r', 'u', 'e']
  | .vbool false => ['F', 'a', 'l', 's', 'e']
  | .vint n => intChars n
  | .vstr s => quoteChars s.data
  | .vlist xs => '[' :: reprList xs ++ [']']
  | .vdict d => '{' :: reprDict d ++ ['}']

/-- Elements of a list repr, joined by `", "`. -/
def reprList : List Value → List Char
  | [] => []
  | x :: rest =>
    reprChars x ++ (match rest with
      | [] => []
      | _ :: _ => ',' :: ' ' :: reprList rest)

/-- Entries of a dict repr, `'key': value` joined by `", "`. -/
def reprDict : List (String × Value) → List Char
  | [] => []
  | (k, v) :: rest =>
    quoteChars k.data ++ ':' :: ' ' :: reprChars v ++ (match rest with
      | [] => []
      | _ :: _ => ',' :: ' ' :: reprDict rest)

end

/-- Python `str(v)`: the string itself for strings, `repr` otherwise. -/
def pyStrChars : Value → List Char
  | .vstr s => s.data
  | v => reprChars v

/-- Python `str(v)` as a `String`. -/
def pyStr (v : Value) : String := String.mk (pyStrChars v)

/-!
Well-formedness: trees that can arise from real Python dicts have no
duplicate keys at any dict node reachable through dict values.  (Dicts nested
inside lists are never merged key-wise by the code under verification, so
they need no constraint.)
-/

mutual

/-- Keys of every dict node reachable through dict values are duplicate-free. -/
def wfV : Value → Bool
  | .vdict d => wfD d
  | _ => true

def wfD : List (String × Value) → Bool
  | [] => true
  | (k, v) :: rest => !(rest.any fun kv => kv.1 = k) && wfV v && wfD rest

end

/-!
Embedding of `src/lambdas/common/config_merger.py`.
-/

mutual

/-- Function `deep_merge` (config_merger.py:10-29).  `result` starts as a deep
copy of `base`; for each `key, value` in `override` (in insertion order), if
both sides hold a dict at `key` they are merged recursively, otherwise the
override value replaces the base value. -/
def deep_merge : List (String × Value) → List (String × Value) → List (String × Value)
  | result, [] => result
  | result, (key, value) :: rest => deep_merge (mergeKey result key value) rest

/-- Processing of one `key, value` pair of the `override` loop in
`deep_merge`: merge recursively when both sides hold a dict at `key`,
otherwise assign the override value. -/
def mergeKey (result : List (String × Value)) (key : String) : Value → List (String × Value)
  | Value.vdict vd =>
    (match dlookup result key with
     | some (Value.vdict rd) => dset result key (Value.vdict (deep_merge rd vd))
     | _ => dset result key (Value.vdict vd))
  | v => dset result key v

end

mutual

/-- Function `get_all_paths` (config_merger.py:32-53): dot-joined paths of all
non-dict leaves, in iteration order.  The Python parameter `prefix` is named
`pre` here. -/
def get_all_paths : List (String × Value) → String → List String
  | [], _ => []
  | (key, v) :: rest, pre =>
    gapEntry v (if pre = "" then key else pre ++ "." ++ key) ++ get_all_paths rest pre

/-- One iteration of the `get_all_paths` loop: recurse into dict values,
yield the current path for any other value. -/
def gapEntry : Value → String → List String
  | Value.vdict d, cur => get_all_paths d cur
  | _, cur => [cur]

end

/-- Python `s.split(sep)` for a one-character separator, over character
lists: `"" → [""]`, empty segments kept. -/
def splitOnChar (sep : Char) : List Char → List (List Char)
  | [] => [[]]
  | c :: rest =>
    let r := splitOnChar sep rest
    if c = sep then [] :: r
    else
      match r with
      | [] => [[c]]
      | w :: ws => (c :: w) :: ws

/-- Python `path.split(sep)` as strings. -/
def pySplit (s : String) (sep : Char) : List String :=
  (splitOnChar sep s.data).map String.mk

/-- Loop body of `get_value_at_path`: walk the split path; a missing key or a
non-dict node yields Python `None` (`vnull`). -/
def gvapGo : Value → List String → Value
  | current, [] => current
  | current, part :: rest =>
    match current with
    | Value.vdict d =>
      match dlookup d part with
      | some v => gvapGo v rest
      | none => Value.vnull
    | _ => Value.vnull

/-- Function `get_value_at_path` (config_merger.py:56-76). -/
def get_value_at_path (config : List (String × Value)) (path : String) : Value :=
  gvapGo (Value.vdict config) (pySplit path '.')

/-- Loop body of `set_value_at_path`: descend over all parts but the last,
creating `{}` for missing keys; descending into (or finally assigning inside)
a non-dict raises `TypeError` in Python, embedded as `none`. -/
def svapGo : List (String × Value) → List String → Value → Option (List (String × Value))
  | d, [], _ => some d
  | d, [p], v => some (dset d p v)
  | d, p :: rest, v =>
    match (dlookup d p).getD (Value.vdict []) with
    | Value.vdict cd => (svapGo cd rest v).map fun cd2 => dset d p (Value.vdict cd2)
    | _ => none

/-- Function `set_value_at_path` (config_merger.py:79-96), as the tree it
leaves behind (`none` = the call raises). -/
def set_value_at_path (config : List (String × Value)) (path : String) (v : Value) :
    Option (List (String × Value)) :=
  svapGo config (pySplit path '.') v

/-- One entry of the `differences` list built by `compare_configs`. -/
structure Diff where
  path : String
  actual : Value
  expected : Value
  deriving DecidableEq

/-- Function `compare_configs` (config_merger.py:276-301).  Python iterates a
set union of the two path lists; set order is implementation-defined, so the
embedding fixes the deterministic first-list-then-second order with
duplicates removed. -/
def compare_configs (actual expected : List (String × Value)) : List Diff :=
  ((get_all_paths actual "" ++ get_all_paths expected "").dedup).filterMap fun path =>
    let av := get_value_at_path actual path
    let ev := get_value_at_path expected path
    if av ≠ ev then some ⟨path, av, ev⟩ else none

/-- One element of the `configs` argument of `detect_conflicts`: a dict with
keys `source`, `priority`, `config`. -/
structure CSource where
  source : String
  priority : Int
  config : List (String × Value)

/-- One element of `values_by_source` inside `detect_conflicts`. -/
structure VEntry where
  priority : Int
  value : Value
  source : String

/-- The conflict record appended by `detect_conflicts`. -/
structure Conflict where
  path : String
  sources : List String
  values : List Value
  resolution : String
  deriving DecidableEq

/-- Inner loop of `detect_conflicts` (config_merger.py:119-128): the sources
that contribute a non-`None` value at `path`, in source order. -/
def values_by_source (configs : List CSource) (path : String) : List VEntry :=
  configs.filterMap fun ci =>
    let v := get_value_at_path ci.config path
    if v ≠ Value.vnull then some ⟨ci.priority, v, ci.source⟩ else none

/-- Python `max(values_by_source, key=priority)`: the first entry holding the
maximal priority. -/
def pymaxBy (e : VEntry) (rest : List VEntry) : VEntry :=
  rest.foldl (fun best x => if x.priority > best.priority then x else best) e

/-- Per-path body of `detect_conflicts` (config_merger.py:118-147): more than
one distinct `str(value)` records a Conflict and keeps the highest-priority
value; exactly one distinct value is adopted silently; no value leaves the
merged config untouched. -/
def conflictStep (configs : List CSource)
    (acc : Option (List (String × Value) × List Conflict)) (path : String) :
    Option (List (String × Value) × List Conflict) :=
  match acc with
  | none => none
  | some (merged, conflicts) =>
    let vbs := values_by_source configs path
    let uniq := (vbs.map fun e => pyStr e.value).dedup
    if 1 < uniq.length then
      match vbs with
      | [] => some (merged, conflicts)
      | e :: rest =>
        let c : Conflict := ⟨path, vbs.map (·.source), vbs.map (·.value), "use_highest_priority"⟩
        (set_value_at_path merged path (pymaxBy e rest).value).map fun m2 =>
          (m2, conflicts ++ [c])
    else
      match vbs with
      | [] => some (merged, conflicts)
      | e :: _ => (set_value_at_path merged path e.value).map fun m2 => (m2, conflicts)

/-- Function `detect_conflicts` (config_merger.py:99-149).  Python iterates a
set of paths (arbitrary order); the embedding fixes the deterministic
deduplicated concatenation order.  `none` = the call raises (only possible
through `set_value_at_path` on pathologically overlapping paths). -/
def detect_conflicts (configs : List CSource) :
    Option (List (String × Value) × List Conflict) :=
  ((configs.foldl (fun acc ci => acc ++ get_all_paths ci.config "") []).dedup).foldl
    (conflictStep configs) (some ([], []))

/-!
Embedding of `src/lambdas/common/eval.py`: selector matching, nested path
lookup with `[*]` wildcards, and the forbidden-any evaluator.
-/

/-- Selector dict from a Rule or ResourceGroup.  The Python selector is a
dict with the optional keys `tags`, `arn_pattern`, `name_pattern`; unknown
keys are ignored by the matcher, so the embedding omits them. -/
structure Selector where
  tags : Option (List (String × Value)) := none
  arn_pattern : Option String := none
  name_pattern : Option String := none

/-- Python `not selector`: the selector dict is empty. -/
def Selector.isEmpty (s : Selector) : Bool :=
  s.tags.isNone && s.arn_pattern.isNone && s.name_pattern.isNone

/-- Resource dataclass (models.py:11-35).  `drift_score` is a Python float in
[0, 1]; every value the evaluator writes there is a decimal fraction with
denominator 10, exactly representable, so `ℚ` is a faithful embedding. -/
structure Resource where
  arn : String
  resource_type : String
  config : List (String × Value)
  region : String := ""
  account_id : String := ""
  metadata : List (String × Value) := []
  tenant_id : String := ""
  compliance_status : String := "NOT_EVALUATED"
  drift_score : ℚ := 0
  findings_count : Nat := 0
  last_evaluated : String := ""
  base_config_applied : Option String := none
  groups_applied : List String := []
  desired_config : List (String × Value) := []

/-- Tag value of the normalized list form: Python builds
`{tag.get("Key"): tag.get("Value") for tag in list}` and then `.get(k)`.
Later entries override earlier ones; entries whose `Key` is not the string
`k` (including missing or non-string keys) never match. -/
def listTagGet (items : List Value) (k : String) : Value :=
  items.foldl
    (fun acc it =>
      match it with
      | Value.vdict td =>
        if (dlookup td "Key").getD Value.vnull = Value.vstr k then
          (dlookup td "Value").getD Value.vnull
        else acc
      | _ => acc)
    Value.vnull

/-- Tag-requirement loop of `matches_selector` (eval.py:32-40): normalize the
resource tags, then require every selector tag to match.  `none` embeds the
`AttributeError` Python raises when the tags are a list with a non-dict
element (always, the comprehension runs before the loop) or a non-dict
non-list scalar (only when some requirement forces a `.get` on it). -/
def tagsMatch (tagsVal : Value) (reqs : List (String × Value)) : Option Bool :=
  match tagsVal with
  | Value.vdict d => some (reqs.all fun kv => (dlookup d kv.1).getD Value.vnull = kv.2)
  | Value.vlist items =>
    if items.all (·.isDict) then
      some (reqs.all fun kv => listTagGet items kv.1 = kv.2)
    else none
  | _ => if reqs.isEmpty then some true else none

/-- Function `matches_selector` (eval.py:12-56).  `re.match` is embedded as
the oracle `rmatch pattern text` (truthiness of the match object); none of
the verified properties depends on the regex semantics.  `none` embeds a
raised exception (malformed tag metadata). -/
def matches_selector (rmatch : String → String → Bool) (r : Resource) (s : Selector) :
    Option Bool :=
  if s.isEmpty then some true
  else
    let tagsRes : Option Bool :=
      match s.tags with
      | none => some true
      | some reqs => tagsMatch ((dlookup r.metadata "Tags").getD (Value.vdict [])) reqs
    match tagsRes with
    | none => none
    | some false => some false
    | some true =>
      let arnOk : Bool :=
        match s.arn_pattern with
        | none => true
        | some pat => rmatch pat r.arn
      if !arnOk then some false
      else
        let nameOk : Bool :=
          match s.name_pattern with
          | none => true
          | some pat =>
            let name :=
              if r.arn.data.contains '/' then (pySplit r.arn '/').getLastD ""
              else (pySplit r.arn ':').getLastD ""
            rmatch pat name
        if !nameOk then some false else some true

/-- Python `part.endswith("[*]")` together with `part[:-3]`. -/
def wildcardKey (part : String) : Option String :=
  match part.data.reverse with
  | ']' :: '*' :: '[' :: rk => some (String.mk rk.reverse)
  | _ => none

/-- Loop of `get_nested` (eval.py:80-109) over the split path.  In Python the
wildcard branch rejoins the remaining parts with `"."` and recurses through
`get_nested`; the parts carry no dot, so splitting the rejoined remainder
gives back `rest` whenever the remainder is non-empty, and the empty
remainder (only for `rest = [""]`) returns each element unchanged — both
cases are written out here.  (Python's `parts.index(part)` is the current
loop position: execution returns at the first wildcard segment, and no
non-wildcard segment can equal a wildcard one.) -/
def goNested : Value → List String → Value
  | current, [] => current
  | current, part :: rest =>
    if current = Value.vnull then Value.vnull
    else
      match wildcardKey part with
      | some key =>
        (match current with
         | Value.vdict d =>
           (match dlookup d key with
            | some (Value.vlist items) =>
              (match rest with
               | [] => Value.vlist items
               | _ :: _ =>
                 if rest = [""] then Value.vlist items
                 else Value.vlist (items.map fun item => goNested item rest))
            | _ => Value.vnull)
         | _ => Value.vnull)
      | none =>
        match current with
        | Value.vdict d => goNested ((dlookup d part).getD Value.vnull) rest
        | _ => Value.vnull

/-- Function `get_nested` (eval.py:59-109). -/
def get_nested (obj : Value) (path : String) : Value :=
  if path = "" then obj else goNested obj (pySplit path '.')

mutual

/-- Function `flatten_list` (eval.py:112-120). -/
def flatten_list : List Value → List Value
  | [] => []
  | item :: rest => flatItem item ++ flatten_list rest

/-- One iteration of the `flatten_list` loop: extend with the recursive
flattening of a list element, append any other element. -/
def flatItem : Value → List Value
  | Value.vlist xs => flatten_list xs
  | v => [v]

end

/-- Check object of a Rule.  Modelled from the spec: the `Rule`/`Check`
dataclasses are imported by eval.py from models.py but are absent from the
sources (models.py holds only `Resource` and `Finding`); §3 names the fields
`kind + path + kind-specific parameters`. -/
structure Check where
  type : String := ""
  path : String := ""
  expected : Value := Value.vnull
  forbidden : Option (List String) := none
  params : List (String × Value) := []

/-- Rule dataclass.  Modelled from the spec (§3): id, resource_type, check,
severity, message, selector. -/
structure Rule where
  id : String := ""
  resource_type : String := ""
  check : Check := {}
  severity : String := ""
  message : String := ""
  selector : Selector := {}

/-- Finding. models.py:68-91 declares the dataclass; `Finding.create`, which
fills it, is absent from the sources, so its effect is modelled from the
spec (§3, §4.5): the finding carries the observed/expected passed by the
evaluator, the differences list, and merge-provenance metadata (base config
applied, groups applied, difference count, drift score). -/
structure Finding where
  rule_id : String := ""
  severity : String := ""
  message : String := ""
  observed : Value := Value.vnull
  expected : Value := Value.vnull
  differences : List Diff := []
  base_config_applied : Option String := none
  groups_applied : List String := []
  difference_count : Nat := 0
  drift_score : ℚ := 0
  deriving DecidableEq

/-- Function `evaluate_forbidden_any` (eval.py:149-184).  Python collects the
violating values into a set and emits `list(violations)` in arbitrary set
order; the embedding fixes the deterministic first-seen order, which agrees
with Python up to reordering of the emitted list. -/
def evaluate_forbidden_any (resource : Resource) (rule : Rule) : Option Finding :=
  let observed := get_nested (Value.vdict resource.config) rule.check.path
  let forbidden := rule.check.forbidden.getD []
  let observedList : List Value :=
    match observed with
    | Value.vlist xs => flatten_list xs
    | Value.vnull => []
    | v => [v]
  let observedSet :=
    (observedList.filterMap fun v =>
      if v ≠ Value.vnull then some (pyStr v) else none).dedup
  let violations := observedSet.filter fun sv => forbidden.contains sv
  if violations ≠ [] then
    some { rule_id := rule.id
           severity := rule.severity
           observed := Value.vlist (violations.map Value.vstr)
           expected := Value.vstr ("None of: " ++ pyStr (Value.vlist (forbidden.map Value.vstr))) }
  else none

/-!
Hierarchical evaluation orchestrator.  The final evaluator — the
`evaluate_resources(tenant_id=…, resources=…, table_name=…)` called by
scan_handler/app.py:166, which writes `compliance_status`, `drift_score` and
severity onto each resource — is absent from the sources (common/eval.py
holds an older rule-list variant with a different signature; models.py
declares the fields it fills).  Per-resource evaluation is therefore
modelled from the spec, §4.5, on top of the source-derived `deep_merge`,
`compare_configs` and `matches_selector`.
-/

/-- BaseConfig (config_models.py:9-46): the per-resource-type desired
configuration. -/
structure BaseConfig where
  resource_type : String
  desired_config : List (String × Value)
  version : String := "v1"

/-- ResourceGroup (config_models.py:49-80): an override layer with selector
and priority. -/
structure ResourceGroup where
  group_id : String := ""
  name : String := ""
  resource_type : String := ""
  selector : Selector := {}
  priority : Int := 100
  desired_config : List (String × Value) := []

/-- Modelled from the spec (§4.5 step 7): severity from the difference
count — LOW for at most 5, MEDIUM for 6 to 10, HIGH above 10. -/
def severityForCount (n : Nat) : String :=
  if n ≤ 5 then "LOW" else if n ≤ 10 then "MEDIUM" else "HIGH"

/-- Modelled from the spec (§4.5 step 7): `drift_score = min(1.0,
count(differences) / 10.0)`. -/
def driftScoreForCount (n : Nat) : ℚ :=
  min 1 ((n : ℚ) / 10)

/-- Stable insertion keeping existing elements of equal priority in front:
one step of an ascending stable sort (Python `sort` is stable). -/
def insertByPriority (g : ResourceGroup) : List ResourceGroup → List ResourceGroup
  | [] => [g]
  | h :: t => if h.priority ≤ g.priority then h :: insertByPriority g t else g :: h :: t

/-- Modelled from the spec (§4.5 step 2): matching groups sorted ascending by
priority, stably. -/
def sortByPriority (gs : List ResourceGroup) : List ResourceGroup :=
  gs.foldl (fun acc g => insertByPriority g acc) []

/-- Modelled from the spec (§4.5 step 2): the groups applicable to a
resource — same resource_type and selector match — sorted ascending by
priority so later merges win. -/
def matchingGroups (rmatch : String → String → Bool) (groups : List ResourceGroup)
    (r : Resource) : List ResourceGroup :=
  sortByPriority (groups.filter fun g =>
    g.resource_type = r.resource_type && (matches_selector rmatch r g.selector == some true))

/-- Modelled from the spec (§4.5 step 3): effective desired config — the
BaseConfig seed with each matching group's desired_config deep-merged on top
in ascending priority order. -/
def effectiveDesiredConfig (rmatch : String → String → Bool) (b : BaseConfig)
    (groups : List ResourceGroup) (r : Resource) : List (String × Value) :=
  (matchingGroups rmatch groups r).foldl (fun acc g => deep_merge acc g.desired_config)
    b.desired_config

/-- Modelled from the spec (§4.5 step 5): the drift between the observed
config and the effective desired config, computed by the source
`compare_configs`. -/
def hierDiffs (rmatch : String → String → Bool) (b : BaseConfig)
    (groups : List ResourceGroup) (r : Resource) : List Diff :=
  compare_configs r.config (effectiveDesiredConfig rmatch b groups r)

/-- Modelled from the spec (§4.5): per-resource hierarchical evaluation.
No BaseConfig: mark NOT_EVALUATED, stamp `last_evaluated`, stop without a
Finding.  Otherwise merge base and matching groups, diff against the
observed config, then score: no differences is COMPLIANT with drift 0 and no
Finding; differences make the resource NON_COMPLIANT with the capped linear
drift score and exactly one Finding carrying the differences and the merge
provenance. -/
def evaluate_resource_hierarchical (rmatch : String → String → Bool)
    (bc : Option BaseConfig) (groups : List ResourceGroup) (r : Resource) (now : String) :
    Resource × Option Finding :=
  match bc with
  | none => ({ r with compliance_status := "NOT_EVALUATED", last_evaluated := now }, none)
  | some b =>
    let matching := matchingGroups rmatch groups r
    let effective := effectiveDesiredConfig rmatch b groups r
    let diffs := hierDiffs rmatch b groups r
    let names := matching.map (·.name)
    if diffs.isEmpty then
      ({ r with
          compliance_status := "COMPLIANT"
          drift_score := 0
          base_config_applied := some b.version
          groups_applied := names
          desired_config := effective
          last_evaluated := now }, none)
    else
      let n := diffs.length
      let f : Finding :=
        { rule_id := "hierarchical-config"
          severity := severityForCount n
          observed := Value.vdict r.config
          expected := Value.vdict effective
          differences := diffs
          base_config_applied := some b.version
          groups_applied := names
          difference_count := n
          drift_score := driftScoreForCount n }
      ({ r with
          compliance_status := "NON_COMPLIANT"
          drift_score := driftScoreForCount n
          findings_count := 1
          base_config_applied := some b.version
          groups_applied := names
          desired_config := effective
          last_evaluated := now }, some f)

/-- The tag value the matcher compares a required tag against: the resource
Tags normalized to a mapping (list-of-`{Key, Value}` form converted, later
entries winning), looked up at `k`, with Python `None` for a missing tag.
`none` when the normalization itself would raise (non-dict list elements, or
scalar Tags). -/
def resourceTagGet (r : Resource) (k : String) : Option Value :=
  match (dlookup r.metadata "Tags").getD (Value.vdict []) with
  | Value.vdict d => some ((dlookup d k).getD Value.vnull)
  | Value.vlist items => if items.all (·.isDict) then some (listTagGet items k) else none
  | _ => none


/-- The value `deep_merge` leaves at one key, as a function of the two
sides: both dicts merge recursively, any override value otherwise replaces,
a key absent from the override keeps the base value. -/
def mergeLookup : Option Value → Option Value → Option Value
  | some (Value.vdict ra), some (Value.vdict rb) => some (Value.vdict (deep_merge ra rb))
  | _, some vb => some vb
  | some va, none => some va
  | none, none => none


/-- The split path `parts` addresses the leaf value `v` inside the tree:
each intermediate segment addresses a dict, the last addresses a non-dict
value.  This is exactly the path-addressing notion under which
`get_all_paths` enumerates a tree's leaf paths. -/
def isLeafAt : List (String × Value) → List String → Value → Prop
  | d, [p], v => dlookup d p = some v ∧ v.isDict = false
  | d, p :: rest, v => ∃ sub, dlookup d p = some (Value.vdict sub) ∧ isLeafAt sub rest v
  | _, [], _ => False

/-- The override tree holds nothing anywhere along the split path: every
intermediate segment is absent or a dict, and the final segment is absent.
Equivalently, no leaf path of the override is prefix-comparable with the
path. -/
def untouched : List (String × Value) → List String → Prop
  | d, [p] => dlookup d p = none
  | d, p :: rest =>
    dlookup d p = none ∨ ∃ sub, dlookup d p = some (Value.vdict sub) ∧ untouched sub rest
  | _, [] => True


/-!
Claim C3 groundwork: injectivity of the Python `repr` serialization on the
value domain, proved through a verified parser (`parseV`) that reads a
`repr` back.  This is what makes "pairwise distinct values" force "more than
one distinct `str(value)`" in `detect_conflicts` — for non-null values; a
null value is dropped before stringification, which is exactly the C3
counterexample.
-/

/-- Numeric value of a decimal digit character. -/
def digitVal (c : Char) : Nat := c.toNat - 48

/-- Accumulated value of a digit list, most significant first. -/
def digitsToNat (ds : List Char) : Nat :=
  ds.foldl (fun acc c => 10 * acc + digitVal c) 0

/-- Parse a non-empty run of decimal digits. -/
def parseNat (cs : List Char) : Option (Nat × List Char) :=
  let ds := cs.takeWhile (·.isDigit)
  if ds.isEmpty then none
  else some (digitsToNat ds, cs.dropWhile (·.isDigit))

/-- Parse a quoted string body up to the unescaped closing quote `q`,
undoing the backslash escapes of `escChars`. -/
def parseStrL (q : Char) : List Char → Option (List Char × List Char)
  | [] => none
  | c :: rest =>
    if c = '\\' then
      match rest with
      | [] => none
      | e :: rest2 => (parseStrL q rest2).map fun sr => (e :: sr.1, sr.2)
    else if c = q then some ([], rest)
    else (parseStrL q rest).map fun sr => (c :: sr.1, sr.2)

/-- Match an expected literal character sequence. -/
def expectChars : List Char → List Char → Option (List Char)
  | [], cs => some cs
  | p :: ps, c :: rest => if c = p then expectChars ps rest else none
  | _ :: _, [] => none

mutual

/-- Fueled parser for the `repr` grammar: literals, ints, quoted strings,
lists, dicts.  The fuel only bounds nesting; `fsize` fuel always suffices. -/
def parseV : Nat → List Char → Option (Value × List Char)
  | 0, _ => none
  | fuel + 1, cs =>
    match cs with
    | [] => none
    | c :: rest =>
      if c = 'N' then (expectChars ['o', 'n', 'e'] rest).map fun r => (Value.vnull, r)
      else if c = 'T' then (expectChars ['r', 'u', 'e'] rest).map fun r => (Value.vbool true, r)
      else if c = 'F' then
        (expectChars ['a', 'l', 's', 'e'] rest).map fun r => (Value.vbool false, r)
      else if c = '-' then (parseNat rest).map fun nr => (Value.vint (-(nr.1 : Int)), nr.2)
      else if c = '[' then
        if rest.head? = some ']' then some (Value.vlist [], rest.tail)
        else (parseElems fuel rest).map fun xr => (Value.vlist xr.1, xr.2)
      else if c = '{' then
        if rest.head? = some '}' then some (Value.vdict [], rest.tail)
        else (parseEntries fuel rest).map fun er => (Value.vdict er.1, er.2)
      else if c = '\'' ∨ c = '"' then
        (parseStrL c rest).map fun sr => (Value.vstr (String.mk sr.1), sr.2)
      else if c.isDigit then
        (parseNat (c :: rest)).map fun nr => (Value.vint (nr.1 : Int), nr.2)
      else none

/-- Parse `", "`-separated list elements, consuming the closing `]`. -/
def parseElems : Nat → List Char → Option (List Value × List Char)
  | 0, _ => none
  | fuel + 1, cs =>
    match parseV fuel cs with
    | none => none
    | some (v, r) =>
      match r with
      | ']' :: r2 => some ([v], r2)
      | ',' :: ' ' :: r2 => (parseElems fuel r2).map fun xr => (v :: xr.1, xr.2)
      | _ => none

/-- Parse `", "`-separated `'key': value` dict entries, consuming the
closing `}`. -/
def parseEntries : Nat → List Char → Option (List (String × Value) × List Char)
  | 0, _ => none
  | fuel + 1, cs =>
    match cs with
    | [] => none
    | c :: rest =>
      if c = '\'' ∨ c = '"' then
        match parseStrL c rest with
        | none => none
        | some (k, r) =>
          match r with
          | ':' :: ' ' :: r2 =>
            match parseV fuel r2 with
            | none => none
            | some (v, r3) =>
              match r3 with
              | '}' :: r4 => some ([(String.mk k, v)], r4)
              | ',' :: ' ' :: r4 =>
                (parseEntries fuel r4).map fun er => ((String.mk k, v) :: er.1, er.2)
              | _ => none
          | _ => none
      else none

end

mutual

/-- Fuel adequate for parsing a value's repr. -/
def fsize : Value → Nat
  | .vlist xs => 1 + esize xs
  | .vdict d => 1 + dsize d
  | _ => 1

/-- Fuel adequate for parsing a list body's repr. -/
def esize : List Value → Nat
  | [] => 1
  | x :: rest => 1 + fsize x + esize rest

/-- Fuel adequate for parsing a dict body's repr. -/
def dsize : List (String × Value) → Nat
  | [] => 1
  | (_, v) :: rest => 1 + fsize v + dsize rest

end

/-- The remainder after a parsed value must not begin with a digit (digits
would be absorbed into a preceding int); every separator the grammar uses
satisfies this. -/
def goodRest (rest : List Char) : Prop :=
  ∀ c, rest.head? = some c → c.isDigit = false


/-!
Helper lemmas about the dict primitives and path splitting.
-/

theorem dlookup_dset_self (d : List (String × Value)) (k : String) (v : Value) :
    dlookup (dset d k v) k = some v := by
  induction d with
  | nil => simp [dset, dlookup]
  | cons h t ih =>
    obtain ⟨k', v'⟩ := h
    by_cases hk : k' = k
    · simp [dset, dlookup, hk]
    · simp [dset, dlookup, hk, ih]

theorem dlookup_dset_ne (d : List (String × Value)) (k k' : String) (v : Value)
    (h : k' ≠ k) : dlookup (dset d k v) k' = dlookup d k' := by
  induction d with
  | nil => simp [dset, dlookup, Ne.symm h]
  | cons hd t ih =>
    obtain ⟨k0, v0⟩ := hd
    by_cases hk : k0 = k
    · subst hk
      simp [dset, dlookup, h, Ne.symm h]
    · simp only [dset, if_neg hk, dlookup]
      by_cases hk' : k0 = k'
      · simp [hk']
      · simp [hk', ih]

theorem dset_id (d : List (String × Value)) (k : String) (v : Value)
    (h : dlookup d k = some v) : dset d k v = d := by
  induction d with
  | nil => simp [dlookup] at h
  | cons hd t ih =>
    obtain ⟨k0, v0⟩ := hd
    by_cases hk : k0 = k
    · subst hk
      simp only [dlookup, if_pos, Option.some.injEq] at h
      simp [dset, h]
    · simp only [dlookup, if_neg hk] at h
      simp [dset, hk, ih h]

theorem splitOnChar_ne_nil (sep : Char) (cs : List Char) : splitOnChar sep cs ≠ [] := by
  cases cs with
  | nil => simp [splitOnChar]
  | cons c rest =>
    simp only [splitOnChar]
    by_cases h : c = sep
    · simp [h]
    · simp only [if_neg h]
      cases splitOnChar sep rest <;> simp

theorem pySplit_ne_nil (s : String) (sep : Char) : pySplit s sep ≠ [] := by
  simp only [pySplit, ne_eq, List.map_eq_nil_iff]
  exact splitOnChar_ne_nil sep s.data

/-!
Claim C7: get-after-set roundtrip for `set_value_at_path` /
`get_value_at_path`.
-/

theorem svapGo_gvapGo : ∀ (parts : List String) (d t' : List (String × Value)) (v : Value),
    parts ≠ [] → svapGo d parts v = some t' → gvapGo (Value.vdict t') parts = v := by
  intro parts
  induction parts with
  | nil => intro d t' v h; exact absurd rfl h
  | cons p rest ih =>
    intro d t' v _ hset
    cases rest with
    | nil =>
      simp only [svapGo, Option.some.injEq] at hset
      subst hset
      simp [gvapGo, dlookup_dset_self]
    | cons q qs =>
      simp only [svapGo] at hset
      rcases hcd : (dlookup d p).getD (Value.vdict []) with _ | _ | _ | _ | _ | cd <;>
        rw [hcd] at hset <;> simp at hset
      obtain ⟨cd2, hrec, ht'⟩ := hset
      subst ht'
      simp only [gvapGo, dlookup_dset_self]
      exact ih cd cd2 v (by simp) hrec

/-- Claim C7: for every tree, value and valid dot-path (one the Python
`set_value_at_path` completes without raising, i.e. whose intermediate
segments address dicts or missing keys — `set` auto-creates the missing
levels), reading the path back after writing returns the written value:
`get_value_at_path(set_value_at_path(tree, path, value), path) == value`.
Paths containing `[*]` are not treated specially by either function, so the
property holds for them as well; the claim's restriction is harmless. -/
theorem get_after_set (tree t' : List (String × Value)) (path : String) (v : Value)
    (h : set_value_at_path tree path v = some t') :
    get_value_at_path t' path = v :=
  svapGo_gvapGo (pySplit path '.') tree t' v (pySplit_ne_nil path '.')  h

/-- Witness for C7 at a concrete input: writing 7 at `"a.b"` into the empty
tree auto-creates `{"a": {"b": 7}}` and reading it back returns 7. -/
theorem get_after_set_witness :
    get_value_at_path [("a", Value.vdict [("b", Value.vint 7)])] "a.b" = Value.vint 7 :=
  get_after_set [] [("a", Value.vdict [("b", Value.vint 7)])] "a.b" (Value.vint 7) (by decide)

/-!
Claim C6: `get_nested` is total and returns null on missing keys, non-dict
nodes, and `[*]` over non-lists.
-/

theorem goNested_vnull (ps : List String) : goNested Value.vnull ps = Value.vnull := by
  cases ps <;> simp [goNested]

/-- Claim C6: `get_nested` is total — it is a total Lean function, the
faithful image of the Python loop, which can raise no exception — and
returns Python `None` (`vnull`) in the three partial-lookup situations the
spec names: (1) any lookup step on a non-dict object, (2) a missing key,
whether the first segment is plain or a `[*]` wildcard (`(wildcardKey
p).getD p` is the key the code looks up in either shape), and (3) a `[*]`
segment whose addressed value is not a list. -/
theorem get_nested_null_cases :
    (∀ (obj : Value) (path : String), obj.isDict = false → path ≠ "" →
      get_nested obj path = Value.vnull)
    ∧ (∀ (d : List (String × Value)) (path p : String) (ps : List String), path ≠ "" →
        pySplit path '.' = p :: ps → dlookup d ((wildcardKey p).getD p) = none →
        get_nested (Value.vdict d) path = Value.vnull)
    ∧ (∀ (d : List (String × Value)) (path p key : String) (ps : List String) (v : Value),
        path ≠ "" → pySplit path '.' = p :: ps → wildcardKey p = some key →
        dlookup d key = some v → v.isList = false →
        get_nested (Value.vdict d) path = Value.vnull) := by
  refine ⟨?_, ?_, ?_⟩
  · intro obj path hobj hpath
    rw [get_nested, if_neg hpath]
    obtain ⟨p, ps, hsp⟩ := List.exists_cons_of_ne_nil (pySplit_ne_nil path '.')
    rw [hsp]
    cases obj <;> simp only [Value.isDict] at hobj <;>
      (try cases hw : wildcardKey p <;> simp [goNested, hw, goNested_vnull]) <;>
      simp at hobj
  · intro d path p ps hpath hsp hlk
    rw [get_nested, if_neg hpath, hsp]
    cases hw : wildcardKey p with
    | none =>
      rw [hw, Option.getD_none] at hlk
      simp [goNested, hw, hlk, goNested_vnull]
    | some key =>
      rw [hw, Option.getD_some] at hlk
      simp [goNested, hw, hlk]
  · intro d path p key ps v hpath hsp hw hlk hv
    rw [get_nested, if_neg hpath, hsp]
    cases v <;> simp only [Value.isList] at hv <;>
      (try simp [goNested, hw, hlk]) <;> simp at hv

/-- Witness for C6 at concrete inputs: a non-dict object, a missing key
under a wildcard segment, and a wildcard over a non-list all return null. -/
theorem get_nested_null_cases_witness :
    get_nested (Value.vint 3) "a" = Value.vnull
    ∧ get_nested (Value.vdict [("b", Value.vint 1)]) "a[*].x" = Value.vnull
    ∧ get_nested (Value.vdict [("a", Value.vint 1)]) "a[*].x" = Value.vnull :=
  ⟨get_nested_null_cases.1 (Value.vint 3) "a" (by decide) (by decide),
   get_nested_null_cases.2.1 [("b", Value.vint 1)] "a[*].x" "a[*]" ["x"] (by decide)
     (by decide) (by decide),
   get_nested_null_cases.2.2 [("a", Value.vint 1)] "a[*].x" "a[*]" "a" ["x"] (Value.vint 1)
     (by decide) (by decide) (by decide) (by decide) (by decide)⟩

/-!
Claim C2: hierarchical evaluation of a resource whose type has no BaseConfig.
-/

/-- Claim C2 (spec-modelled, see `evaluate_resource_hierarchical`): for every
resource whose resource_type has no BaseConfig, hierarchical evaluation
marks the resource NOT_EVALUATED and produces no Finding, whatever groups
exist — including any number of matching ResourceGroups. -/
theorem no_base_config_not_evaluated (rmatch : String → String → Bool)
    (groups : List ResourceGroup) (r : Resource) (now : String) :
    (evaluate_resource_hierarchical rmatch none groups r now).1.compliance_status
        = "NOT_EVALUATED"
    ∧ (evaluate_resource_hierarchical rmatch none groups r now).2 = none := by
  simp [evaluate_resource_hierarchical]

/-!
Claim C1: drift scoring and Finding emission for a non-compliant resource in
hierarchical mode.
-/

/-- Claim C1 (spec-modelled, see `evaluate_resource_hierarchical`): in
hierarchical mode, for every resource whose effective desired config differs
from its observed config at one or more leaf paths, the evaluator sets
`compliance_status` to NON_COMPLIANT, sets `drift_score` to
`min(1.0, count(differences) / 10.0)`, emits exactly one Finding for the
resource carrying the full differences list, and that Finding's severity is
LOW for at most 5 differences, MEDIUM for 6 to 10, and HIGH above 10. -/
theorem hierarchical_drift_scoring (rmatch : String → String → Bool) (b : BaseConfig)
    (groups : List ResourceGroup) (r : Resource) (now : String)
    (h : hierDiffs rmatch b groups r ≠ []) :
    (evaluate_resource_hierarchical rmatch (some b) groups r now).1.compliance_status
        = "NON_COMPLIANT"
    ∧ (evaluate_resource_hierarchical rmatch (some b) groups r now).1.drift_score
        = min 1 (((hierDiffs rmatch b groups r).length : ℚ) / 10)
    ∧ ∃ f, (evaluate_resource_hierarchical rmatch (some b) groups r now).2 = some f
        ∧ f.differences = hierDiffs rmatch b groups r
        ∧ ((hierDiffs rmatch b groups r).length ≤ 5 → f.severity = "LOW")
        ∧ (6 ≤ (hierDiffs rmatch b groups r).length ∧ (hierDiffs rmatch b groups r).length ≤ 10
            → f.severity = "MEDIUM")
        ∧ (10 < (hierDiffs rmatch b groups r).length → f.severity = "HIGH") := by
  have hne : (hierDiffs rmatch b groups r).isEmpty = false := by
    cases hd : hierDiffs rmatch b groups r with
    | nil => exact absurd hd h
    | cons x t => simp
  refine ⟨?_, ?_, ?_⟩
  · simp [evaluate_resource_hierarchical, hne]
  · simp [evaluate_resource_hierarchical, hne, driftScoreForCount]
  · have hf : (evaluate_resource_hierarchical rmatch (some b) groups r now).2 = some
        { rule_id := "hierarchical-config"
          severity := severityForCount (hierDiffs rmatch b groups r).length
          observed := Value.vdict r.config
          expected := Value.vdict (effectiveDesiredConfig rmatch b groups r)
          differences := hierDiffs rmatch b groups r
          base_config_applied := some b.version
          groups_applied := (matchingGroups rmatch groups r).map (·.name)
          difference_count := (hierDiffs rmatch b groups r).length
          drift_score := driftScoreForCount (hierDiffs rmatch b groups r).length } := by
      simp [evaluate_resource_hierarchical, hne]
    refine ⟨_, hf, by simp, ?_, ?_, ?_⟩
    · intro hn
      simp [severityForCount, hn]
    · rintro ⟨h6, h10⟩
      simp only [severityForCount]
      rw [if_neg (by omega), if_pos (by omega)]
    · intro h10
      simp only [severityForCount]
      rw [if_neg (by omega), if_neg (by omega)]

/-- Witness for C1: the spec's S3 scenario.  Base config sets
`PublicAccessBlockConfiguration.BlockPublicAcls = true`, one matching group
at priority 100 overrides it to `false`; a bucket observed with
`BlockPublicAcls = true` drifts at exactly one leaf path, so it is
NON_COMPLIANT with `drift_score = 0.1` and a LOW-severity Finding. -/
theorem hierarchical_drift_scoring_witness :
    (evaluate_resource_hierarchical (fun _ _ => true)
        (some ⟨"AWS::S3::Bucket",
          [("PublicAccessBlockConfiguration", Value.vdict [("BlockPublicAcls", Value.vbool true)])],
          "v1"⟩)
        [{ name := "g1"
           resource_type := "AWS::S3::Bucket"
           priority := 100
           desired_config :=
             [("PublicAccessBlockConfiguration",
               Value.vdict [("BlockPublicAcls", Value.vbool false)])] }]
        { arn := "arn:aws:s3:::b1"
          resource_type := "AWS::S3::Bucket"
          config :=
            [("PublicAccessBlockConfiguration", Value.vdict [("BlockPublicAcls", Value.vbool true)])] }
        "2026-01-01T00:00:00").1.compliance_status = "NON_COMPLIANT"
    ∧ (evaluate_resource_hierarchical (fun _ _ => true)
        (some ⟨"AWS::S3::Bucket",
          [("PublicAccessBlockConfiguration", Value.vdict [("BlockPublicAcls", Value.vbool true)])],
          "v1"⟩)
        [{ name := "g1"
           resource_type := "AWS::S3::Bucket"
           priority := 100
           desired_config :=
             [("PublicAccessBlockConfiguration",
               Value.vdict [("BlockPublicAcls", Value.vbool false)])] }]
        { arn := "arn:aws:s3:::b1"
          resource_type := "AWS::S3::Bucket"
          config :=
            [("PublicAccessBlockConfiguration", Value.vdict [("BlockPublicAcls", Value.vbool true)])] }
        "2026-01-01T00:00:00").1.drift_score
      = min 1 (((hierDiffs (fun _ _ => true)
          ⟨"AWS::S3::Bucket",
            [("PublicAccessBlockConfiguration", Value.vdict [("BlockPublicAcls", Value.vbool true)])],
            "v1"⟩
          [{ name := "g1"
             resource_type := "AWS::S3::Bucket"
             priority := 100
             desired_config :=
               [("PublicAccessBlockConfiguration",
                 Value.vdict [("BlockPublicAcls", Value.vbool false)])] }]
          { arn := "arn:aws:s3:::b1"
            resource_type := "AWS::S3::Bucket"
            config :=
              [("PublicAccessBlockConfiguration",
                Value.vdict [("BlockPublicAcls", Value.vbool true)])] }).length : ℚ) / 10)
    ∧ ∃ f, (evaluate_resource_hierarchical (fun _ _ => true)
        (some ⟨"AWS::S3::Bucket",
          [("PublicAccessBlockConfiguration", Value.vdict [("BlockPublicAcls", Value.vbool true)])],
          "v1"⟩)
        [{ name := "g1"
           resource_type := "AWS::S3::Bucket"
           priority := 100
           desired_config :=
             [("PublicAccessBlockConfiguration",
               Value.vdict [("BlockPublicAcls", Value.vbool false)])] }]
        { arn := "arn:aws:s3:::b1"
          resource_type := "AWS::S3::Bucket"
          config :=
            [("PublicAccessBlockConfiguration", Value.vdict [("BlockPublicAcls", Value.vbool true)])] }
        "2026-01-01T00:00:00").2 = some f
      ∧ f.differences = hierDiffs (fun _ _ => true)
          ⟨"AWS::S3::Bucket",
            [("PublicAccessBlockConfiguration", Value.vdict [("BlockPublicAcls", Value.vbool true)])],
            "v1"⟩
          [{ name := "g1"
             resource_type := "AWS::S3::Bucket"
             priority := 100
             desired_config :=
               [("PublicAccessBlockConfiguration",
                 Value.vdict [("BlockPublicAcls", Value.vbool false)])] }]
          { arn := "arn:aws:s3:::b1"
            resource_type := "AWS::S3::Bucket"
            config :=
              [("PublicAccessBlockConfiguration",
                Value.vdict [("BlockPublicAcls", Value.vbool true)])] }
      ∧ ((hierDiffs (fun _ _ => true)
          ⟨"AWS::S3::Bucket",
            [("PublicAccessBlockConfiguration", Value.vdict [("BlockPublicAcls", Value.vbool true)])],
            "v1"⟩
          [{ name := "g1"
             resource_type := "AWS::S3::Bucket"
             priority := 100
             desired_config :=
               [("PublicAccessBlockConfiguration",
                 Value.vdict [("BlockPublicAcls", Value.vbool false)])] }]
          { arn := "arn:aws:s3:::b1"
            resource_type := "AWS::S3::Bucket"
            config :=
              [("PublicAccessBlockConfiguration",
                Value.vdict [("BlockPublicAcls", Value.vbool true)])] }).length ≤ 5
          → f.severity = "LOW")
      ∧ (6 ≤ (hierDiffs (fun _ _ => true)
          ⟨"AWS::S3::Bucket",
            [("PublicAccessBlockConfiguration", Value.vdict [("BlockPublicAcls", Value.vbool true)])],
            "v1"⟩
          [{ name := "g1"
             resource_type := "AWS::S3::Bucket"
             priority := 100
             desired_config :=
               [("PublicAccessBlockConfiguration",
                 Value.vdict [("BlockPublicAcls", Value.vbool false)])] }]
          { arn := "arn:aws:s3:::b1"
            resource_type := "AWS::S3::Bucket"
            config :=
              [("PublicAccessBlockConfiguration",
                Value.vdict [("BlockPublicAcls", Value.vbool true)])] }).length
          ∧ (hierDiffs (fun _ _ => true)
          ⟨"AWS::S3::Bucket",
            [("PublicAccessBlockConfiguration", Value.vdict [("BlockPublicAcls", Value.vbool true)])],
            "v1"⟩
          [{ name := "g1"
             resource_type := "AWS::S3::Bucket"
             priority := 100
             desired_config :=
               [("PublicAccessBlockConfiguration",
                 Value.vdict [("BlockPublicAcls", Value.vbool false)])] }]
          { arn := "arn:aws:s3:::b1"
            resource_type := "AWS::S3::Bucket"
            config :=
              [("PublicAccessBlockConfiguration",
                Value.vdict [("BlockPublicAcls", Value.vbool true)])] }).length ≤ 10
          → f.severity = "MEDIUM")
      ∧ (10 < (hierDiffs (fun _ _ => true)
          ⟨"AWS::S3::Bucket",
            [("PublicAccessBlockConfiguration", Value.vdict [("BlockPublicAcls", Value.vbool true)])],
            "v1"⟩
          [{ name := "g1"
             resource_type := "AWS::S3::Bucket"
             priority := 100
             desired_config :=
               [("PublicAccessBlockConfiguration",
                 Value.vdict [("BlockPublicAcls", Value.vbool false)])] }]
          { arn := "arn:aws:s3:::b1"
            resource_type := "AWS::S3::Bucket"
            config :=
              [("PublicAccessBlockConfiguration",
                Value.vdict [("BlockPublicAcls", Value.vbool true)])] }).length
          → f.severity = "HIGH") :=
  hierarchical_drift_scoring (fun _ _ => true)
    ⟨"AWS::S3::Bucket",
      [("PublicAccessBlockConfiguration", Value.vdict [("BlockPublicAcls", Value.vbool true)])],
      "v1"⟩
    [{ name := "g1"
       resource_type := "AWS::S3::Bucket"
       priority := 100
       desired_config :=
         [("PublicAccessBlockConfiguration", Value.vdict [("BlockPublicAcls", Value.vbool false)])] }]
    { arn := "arn:aws:s3:::b1"
      resource_type := "AWS::S3::Bucket"
      config :=
        [("PublicAccessBlockConfiguration", Value.vdict [("BlockPublicAcls", Value.vbool true)])] }
    "2026-01-01T00:00:00" (by decide)

/-!
Claim C5: the forbidden-any check against a wildcard IAM action.
-/

/-- Claim C5: a `forbidden-any` check with `forbidden = ["*"]` evaluated
against a resource whose config holds the list `["*"]` at the check's path —
reached through a `[*]` wildcard over the policy statements — returns a
Finding whose observed list contains `"*"`; the same check against a config
holding `["s3:GetObject"]` at that path returns no Finding. -/
theorem evaluate_forbidden_any_star_scenario :
    (∃ f obs,
      evaluate_forbidden_any
        { arn := "arn:aws:iam::123456789012:policy/p1"
          resource_type := "AWS::IAM::Policy"
          config := [("Statement",
            Value.vlist [Value.vdict [("Action", Value.vlist [Value.vstr "*"])]])] }
        { id := "iam-no-star"
          resource_type := "AWS::IAM::Policy"
          check := { type := "forbidden-any"
                     path := "Statement[*].Action"
                     forbidden := some ["*"] } } = some f
      ∧ f.observed = Value.vlist obs ∧ Value.vstr "*" ∈ obs)
    ∧ evaluate_forbidden_any
        { arn := "arn:aws:iam::123456789012:policy/p1"
          resource_type := "AWS::IAM::Policy"
          config := [("Statement",
            Value.vlist [Value.vdict [("Action", Value.vlist [Value.vstr "s3:GetObject"])]])] }
        { id := "iam-no-star"
          resource_type := "AWS::IAM::Policy"
          check := { type := "forbidden-any"
                     path := "Statement[*].Action"
                     forbidden := some ["*"] } } = none := by
  refine ⟨⟨{ rule_id := "iam-no-star"
             observed := Value.vlist [Value.vstr "*"]
             expected := Value.vstr ("None of: " ++ pyStr (Value.vlist [Value.vstr "*"])) },
           [Value.vstr "*"], ?_, ?_, ?_⟩, ?_⟩ <;> decide

/-!
Claim C9: selector matching — the empty selector matches everything, and an
unsatisfied tag requirement always fails the match.
-/

/-- Claim C9: `matches_selector` returns True for the empty selector on
every resource, and returns False whenever the selector carries a tags
requirement mapping some key `k` to a value `v` that the resource's
normalized tags do not provide (`tv ≠ v`, where `tv` is the normalized
lookup — Python `None` when the tag is missing). -/
theorem matches_selector_props :
    (∀ (rmatch : String → String → Bool) (r : Resource),
      matches_selector rmatch r {} = some true)
    ∧ (∀ (rmatch : String → String → Bool) (r : Resource) (s : Selector)
        (reqs : List (String × Value)) (k : String) (v tv : Value),
        s.tags = some reqs → (k, v) ∈ reqs → resourceTagGet r k = some tv → tv ≠ v →
        matches_selector rmatch r s = some false) := by
  constructor
  · intro rmatch r
    simp [matches_selector, Selector.isEmpty]
  · intro rmatch r s reqs k v tv hs hmem hget hne
    have hempty : s.isEmpty = false := by
      simp [Selector.isEmpty, hs]
    have hmatch : tagsMatch ((dlookup r.metadata "Tags").getD (Value.vdict [])) reqs
        = some false := by
      unfold resourceTagGet at hget
      cases htv : (dlookup r.metadata "Tags").getD (Value.vdict []) with
      | vdict d =>
        rw [htv] at hget
        simp only [Option.some.injEq] at hget
        simp only [tagsMatch, Option.some.injEq]
        rw [List.all_eq_false]
        exact ⟨(k, v), hmem, by simp [hget, hne]⟩
      | vlist items =>
        rw [htv] at hget
        simp only [Option.ite_none_right_eq_some, Option.some.injEq] at hget
        obtain ⟨hall, hget⟩ := hget
        simp only [tagsMatch, hall, if_pos, Option.some.injEq]
        rw [List.all_eq_false]
        exact ⟨(k, v), hmem, by simp [hget, hne]⟩
      | vnull => rw [htv] at hget; simp at hget
      | vbool b => rw [htv] at hget; simp at hget
      | vint n => rw [htv] at hget; simp at hget
      | vstr st => rw [htv] at hget; simp at hget
    simp [matches_selector, hempty, hs, hmatch]

/-- Witness for C9 at concrete inputs: the empty selector matches a sample
resource, and a selector requiring `Environment = "production"` rejects a
resource whose Tags list sets `Environment = "dev"`. -/
theorem matches_selector_props_witness :
    matches_selector (fun _ _ => false)
      { arn := "arn:aws:s3:::b1", resource_type := "AWS::S3::Bucket", config := [] } {}
      = some true
    ∧ matches_selector (fun _ _ => false)
      { arn := "arn:aws:s3:::b1"
        resource_type := "AWS::S3::Bucket"
        config := []
        metadata := [("Tags", Value.vlist [Value.vdict
          [("Key", Value.vstr "Environment"), ("Value", Value.vstr "dev")]])] }
      { tags := some [("Environment", Value.vstr "production")] }
      = some false :=
  ⟨matches_selector_props.1 (fun _ _ => false)
      { arn := "arn:aws:s3:::b1", resource_type := "AWS::S3::Bucket", config := [] },
   matches_selector_props.2 (fun _ _ => false)
      { arn := "arn:aws:s3:::b1"
        resource_type := "AWS::S3::Bucket"
        config := []
        metadata := [("Tags", Value.vlist [Value.vdict
          [("Key", Value.vstr "Environment"), ("Value", Value.vstr "dev")]])] }
      { tags := some [("Environment", Value.vstr "production")] }
      [("Environment", Value.vstr "production")] "Environment" (Value.vstr "production")
      (Value.vstr "dev") (by decide) (by decide) (by decide) (by decide)⟩

/-!
Claim C10: an explicit null at a leaf path is indistinguishable from the
path being absent, in conflict detection and in config comparison.
-/

/-- Claim C10: `get_value_at_path` returns `vnull` both for an explicit null
and for an absent path, so (1) a source holding null at a path contributes
no entry to `values_by_source` — dropping it from the source list changes
nothing there, (2) consequently the per-path body `conflictStep` of
`detect_conflicts` is unchanged by dropping that source for that path (the
null source can neither cause a conflict, appear in one, nor win one), and
(3) `compare_configs` reports no difference at a path explicitly null on one
side and absent (or null) on the other. -/
theorem null_equals_absent :
    (∀ (S1 S2 : List CSource) (s : CSource) (p : String),
        get_value_at_path s.config p = Value.vnull →
        values_by_source (S1 ++ s :: S2) p = values_by_source (S1 ++ S2) p)
    ∧ (∀ (S1 S2 : List CSource) (s : CSource) (p : String)
        (acc : Option (List (String × Value) × List Conflict)),
        get_value_at_path s.config p = Value.vnull →
        conflictStep (S1 ++ s :: S2) acc p = conflictStep (S1 ++ S2) acc p)
    ∧ (∀ (A B : List (String × Value)) (p : String),
        get_value_at_path A p = Value.vnull → get_value_at_path B p = Value.vnull →
        ∀ dff ∈ compare_configs A B, dff.path ≠ p) := by
  have part1 : ∀ (S1 S2 : List CSource) (s : CSource) (p : String),
      get_value_at_path s.config p = Value.vnull →
      values_by_source (S1 ++ s :: S2) p = values_by_source (S1 ++ S2) p := by
    intro S1 S2 s p h
    simp [values_by_source, List.filterMap_append, List.filterMap_cons, h]
  refine ⟨part1, ?_, ?_⟩
  · intro S1 S2 s p acc h
    cases acc with
    | none => rfl
    | some mc => simp only [conflictStep, part1 S1 S2 s p h]
  · intro A B p hA hB dff hmem hp
    simp only [compare_configs, List.mem_filterMap] at hmem
    obtain ⟨q, hq, hfq⟩ := hmem
    by_cases hne : get_value_at_path A q ≠ get_value_at_path B q
    · rw [if_pos hne] at hfq
      simp only [Option.some.injEq] at hfq
      have : q = p := by rw [← hfq] at hp; exact hp
      subst this
      exact hne (by rw [hA, hB])
    · rw [if_neg hne] at hfq
      exact Option.noConfusion hfq

/-- Witness for C10 at concrete inputs: a source holding null at `"a.b"`
contributes nothing to `values_by_source` or `conflictStep` there, and a
config holding an explicit null at `"a.b"` shows no difference against an
empty config. -/
theorem null_equals_absent_witness :
    values_by_source
        [⟨"s0", 0, [("a", Value.vdict [("b", Value.vint 1)])]⟩,
         ⟨"s1", 10, [("a", Value.vdict [("b", Value.vnull)])]⟩] "a.b"
      = values_by_source [⟨"s0", 0, [("a", Value.vdict [("b", Value.vint 1)])]⟩] "a.b"
    ∧ conflictStep
        [⟨"s0", 0, [("a", Value.vdict [("b", Value.vint 1)])]⟩,
         ⟨"s1", 10, [("a", Value.vdict [("b", Value.vnull)])]⟩] (some ([], [])) "a.b"
      = conflictStep [⟨"s0", 0, [("a", Value.vdict [("b", Value.vint 1)])]⟩]
          (some ([], [])) "a.b"
    ∧ ∀ dff ∈ compare_configs [("a", Value.vdict [("b", Value.vnull)])] [], dff.path ≠ "a.b" :=
  ⟨null_equals_absent.1 [⟨"s0", 0, [("a", Value.vdict [("b", Value.vint 1)])]⟩] []
      ⟨"s1", 10, [("a", Value.vdict [("b", Value.vnull)])]⟩ "a.b" (by decide),
   null_equals_absent.2.1 [⟨"s0", 0, [("a", Value.vdict [("b", Value.vint 1)])]⟩] []
      ⟨"s1", 10, [("a", Value.vdict [("b", Value.vnull)])]⟩ "a.b" (some ([], [])) (by decide),
   null_equals_absent.2.2 [("a", Value.vdict [("b", Value.vnull)])] [] "a.b"
      (by decide) (by decide)⟩

/-!
Claim C8: idempotence of `deep_merge` on well-formed (duplicate-free, as any
real Python dict) trees.
-/

theorem wfV_vdict (d : List (String × Value)) : wfV (Value.vdict d) = wfD d := by
  simp [wfV]

theorem lookup_of_mem_wf : ∀ (A : List (String × Value)) (k : String) (v : Value),
    wfD A = true → (k, v) ∈ A → dlookup A k = some v := by
  intro A
  induction A with
  | nil => intro k v _ hmem; simp at hmem
  | cons h t ih =>
    obtain ⟨k0, v0⟩ := h
    intro k v hwf hmem
    simp only [wfD, Bool.and_eq_true] at hwf
    rcases List.mem_cons.mp hmem with heq | htail
    · obtain ⟨h1, h2⟩ := Prod.mk.injEq k0 v0 k v ▸ heq.symm
      simp [dlookup, h1, h2]
    · have hk0 : k0 ≠ k := by
        intro hk
        subst hk
        have : t.any (fun kv => kv.1 = k0) = true :=
          List.any_eq_true.mpr ⟨(k0, v), htail, by simp⟩
        simp [this] at hwf
      simp only [dlookup, if_neg hk0]
      exact ih k v hwf.2 htail

theorem wfV_of_mem_wfD : ∀ (A : List (String × Value)) (k : String) (v : Value),
    wfD A = true → (k, v) ∈ A → wfV v = true := by
  intro A
  induction A with
  | nil => intro k v _ hmem; simp at hmem
  | cons h t ih =>
    obtain ⟨k0, v0⟩ := h
    intro k v hwf hmem
    simp only [wfD, Bool.and_eq_true] at hwf
    rcases List.mem_cons.mp hmem with heq | htail
    · obtain ⟨h1, h2⟩ := Prod.mk.injEq k0 v0 k v ▸ heq.symm
      exact h2 ▸ hwf.1.2
    · exact ih k v hwf.2 htail

theorem sizeOf_lt_of_mem : ∀ (A : List (String × Value)) (k : String) (v : Value),
    (k, v) ∈ A → sizeOf v < sizeOf A := by
  intro A
  induction A with
  | nil => intro k v hmem; simp at hmem
  | cons h t ih =>
    intro k v hmem
    rcases List.mem_cons.mp hmem with heq | htail
    · subst heq; simp; omega
    · have := ih k v htail
      simp; omega

theorem deep_merge_self_aux : ∀ (N : Nat) (A o : List (String × Value)),
    (∀ k v, (k, v) ∈ o → dlookup A k = some v ∧ wfV v = true ∧ sizeOf v < N) →
    deep_merge A o = A := by
  intro N
  induction N using Nat.strong_induction_on with
  | _ N ih =>
    intro A o
    induction o with
    | nil => intro _; simp [deep_merge]
    | cons kv rest iho =>
      intro hyp
      obtain ⟨k, v⟩ := kv
      obtain ⟨hlk, hwfv, hsz⟩ := hyp k v (by simp)
      have hmk : mergeKey A k v = A := by
        cases v with
        | vdict vd =>
          have hdd : deep_merge vd vd = vd := by
            have hszd : sizeOf (Value.vdict vd) < N := hsz
            apply ih (sizeOf (Value.vdict vd)) hszd vd vd
            intro k2 v2 hkv2
            have hwfd : wfD vd = true := by rw [← wfV_vdict]; exact hwfv
            refine ⟨lookup_of_mem_wf vd k2 v2 hwfd hkv2,
              wfV_of_mem_wfD vd k2 v2 hwfd hkv2, ?_⟩
            have h1 := sizeOf_lt_of_mem vd k2 v2 hkv2
            have h2 : sizeOf vd < sizeOf (Value.vdict vd) := by
              simp only [Value.vdict.sizeOf_spec]
              omega
            omega
          simp only [mergeKey, hlk, hdd]
          exact dset_id A k (Value.vdict vd) hlk
        | vnull => simp only [mergeKey]; exact dset_id A k Value.vnull hlk
        | vbool b => simp only [mergeKey]; exact dset_id A k (Value.vbool b) hlk
        | vint n => simp only [mergeKey]; exact dset_id A k (Value.vint n) hlk
        | vstr st => simp only [mergeKey]; exact dset_id A k (Value.vstr st) hlk
        | vlist xs => simp only [mergeKey]; exact dset_id A k (Value.vlist xs) hlk
      have hstep : deep_merge A ((k, v) :: rest) = deep_merge (mergeKey A k v) rest := by
        simp [deep_merge]
      rw [hstep, hmk]
      exact iho (fun k2 v2 hkv2 => hyp k2 v2 (by simp [hkv2]))

/-- Claim C8: `deep_merge` is idempotent — `deep_merge(A, A) == A` for any
mapping `A`.  The hypothesis `wfV (vdict A)` (no dict node reachable through
dict values has duplicate keys) holds of every tree originating from real
Python dicts, which cannot carry duplicate keys; it only excludes
association lists that represent no Python value. -/
theorem deep_merge_idem (A : List (String × Value)) (h : wfV (Value.vdict A) = true) :
    deep_merge A A = A := by
  apply deep_merge_self_aux (sizeOf A + 1) A A
  intro k v hkv
  have hwfd : wfD A = true := by rw [← wfV_vdict]; exact h
  refine ⟨lookup_of_mem_wf A k v hwfd hkv, wfV_of_mem_wfD A k v hwfd hkv, ?_⟩
  have := sizeOf_lt_of_mem A k v hkv
  omega

/-- Witness for C8 at a concrete input: a two-key mapping with a nested dict
merges with itself to itself. -/
theorem deep_merge_idem_witness :
    deep_merge [("a", Value.vdict [("b", Value.vint 1)]), ("c", Value.vstr "x")]
      [("a", Value.vdict [("b", Value.vint 1)]), ("c", Value.vstr "x")]
    = [("a", Value.vdict [("b", Value.vint 1)]), ("c", Value.vstr "x")] :=
  deep_merge_idem [("a", Value.vdict [("b", Value.vint 1)]), ("c", Value.vstr "x")] (by decide)

/-!
Claim C4: path-level behavior of `deep_merge`.
-/

theorem dlookup_mem : ∀ (d : List (String × Value)) (k : String) (v : Value),
    dlookup d k = some v → (k, v) ∈ d := by
  intro d
  induction d with
  | nil => intro k v h; simp [dlookup] at h
  | cons hd t ih =>
    obtain ⟨k0, v0⟩ := hd
    intro k v h
    by_cases hk : k0 = k
    · subst hk
      simp only [dlookup, if_pos] at h
      simp only [Option.some.injEq] at h
      simp [h]
    · simp only [dlookup, if_neg hk] at h
      exact List.mem_cons_of_mem _ (ih k v h)

theorem dlookup_eq_none_of_not_mem_keys : ∀ (d : List (String × Value)) (k : String),
    k ∉ d.map Prod.fst → dlookup d k = none := by
  intro d
  induction d with
  | nil => intro k _; rfl
  | cons hd t ih =>
    obtain ⟨k0, v0⟩ := hd
    intro k hk
    simp only [List.map_cons, List.mem_cons] at hk
    push_neg at hk
    have hne : k0 ≠ k := fun h => hk.1 h.symm
    simp only [dlookup, if_neg hne]
    exact ih k hk.2

theorem wfD_keys_nodup : ∀ (d : List (String × Value)), wfD d = true →
    (d.map Prod.fst).Nodup := by
  intro d
  induction d with
  | nil => intro _; simp
  | cons hd t ih =>
    obtain ⟨k0, v0⟩ := hd
    intro hwf
    simp only [wfD, Bool.and_eq_true] at hwf
    simp only [List.map_cons, List.nodup_cons]
    refine ⟨?_, ih hwf.2⟩
    intro hmem
    obtain ⟨⟨k1, v1⟩, hm, he⟩ := List.mem_map.mp hmem
    have : t.any (fun kv => kv.1 = k0) = true :=
      List.any_eq_true.mpr ⟨(k1, v1), hm, by simpa using he⟩
    simp [this] at hwf

theorem mergeKey_lookup_ne (A : List (String × Value)) (kb k : String) (vb : Value)
    (h : k ≠ kb) : dlookup (mergeKey A kb vb) k = dlookup A k := by
  cases vb with
  | vdict vd =>
    simp only [mergeKey]
    cases hA : dlookup A kb with
    | none => exact dlookup_dset_ne A kb k _ h
    | some va => cases va <;> exact dlookup_dset_ne A kb k _ h
  | vnull => exact dlookup_dset_ne A kb k _ h
  | vbool b => exact dlookup_dset_ne A kb k _ h
  | vint n => exact dlookup_dset_ne A kb k _ h
  | vstr st => exact dlookup_dset_ne A kb k _ h
  | vlist xs => exact dlookup_dset_ne A kb k _ h

theorem mergeKey_lookup_self (A : List (String × Value)) (kb : String) (vb : Value) :
    dlookup (mergeKey A kb vb) kb = mergeLookup (dlookup A kb) (some vb) := by
  cases vb with
  | vdict vd =>
    simp only [mergeKey]
    cases hA : dlookup A kb with
    | none => rw [dlookup_dset_self]; rfl
    | some va => cases va <;> rw [dlookup_dset_self] <;> rfl
  | vnull =>
    simp only [mergeKey]
    rw [dlookup_dset_self]
    cases hA : dlookup A kb with
    | none => rfl
    | some va => cases va <;> rfl
  | vbool b =>
    simp only [mergeKey]
    rw [dlookup_dset_self]
    cases hA : dlookup A kb with
    | none => rfl
    | some va => cases va <;> rfl
  | vint n =>
    simp only [mergeKey]
    rw [dlookup_dset_self]
    cases hA : dlookup A kb with
    | none => rfl
    | some va => cases va <;> rfl
  | vstr st =>
    simp only [mergeKey]
    rw [dlookup_dset_self]
    cases hA : dlookup A kb with
    | none => rfl
    | some va => cases va <;> rfl
  | vlist xs =>
    simp only [mergeKey]
    rw [dlookup_dset_self]
    cases hA : dlookup A kb with
    | none => rfl
    | some va => cases va <;> rfl

theorem mergeLookup_none_right (o : Option Value) (vb : Value) :
    mergeLookup (mergeLookup o (some vb)) none = mergeLookup o (some vb) := by
  cases o with
  | none => cases vb <;> rfl
  | some va => cases va <;> cases vb <;> rfl

theorem dlookup_deep_merge : ∀ (B A : List (String × Value)) (k : String),
    (B.map Prod.fst).Nodup →
    dlookup (deep_merge A B) k = mergeLookup (dlookup A k) (dlookup B k) := by
  intro B
  induction B with
  | nil =>
    intro A k _
    simp only [deep_merge, dlookup]
    cases hA : dlookup A k with
    | none => rfl
    | some va => cases va <;> rfl
  | cons hd rest ih =>
    obtain ⟨kb, vb⟩ := hd
    intro A k hnodup
    simp only [List.map_cons, List.nodup_cons] at hnodup
    have hstep : deep_merge A ((kb, vb) :: rest) = deep_merge (mergeKey A kb vb) rest := by
      simp [deep_merge]
    rw [hstep, ih (mergeKey A kb vb) k hnodup.2]
    by_cases hk : k = kb
    · subst hk
      have hrest : dlookup rest k = none :=
        dlookup_eq_none_of_not_mem_keys rest k hnodup.1
      rw [hrest, mergeKey_lookup_self]
      simp only [dlookup, if_pos rfl]
      exact mergeLookup_none_right (dlookup A k) vb
    · rw [mergeKey_lookup_ne A kb k vb hk]
      have hne : kb ≠ k := fun h => hk h.symm
      simp only [dlookup, if_neg hne]

theorem isLeafAt_gvap : ∀ (parts : List String) (d : List (String × Value)) (v : Value),
    isLeafAt d parts v → gvapGo (Value.vdict d) parts = v := by
  intro parts
  induction parts with
  | nil => intro d v h; exact absurd h (by simp [isLeafAt])
  | cons p rest ih =>
    intro d v h
    cases rest with
    | nil =>
      obtain ⟨hl, _⟩ := h
      simp [gvapGo, hl]
    | cons q qs =>
      obtain ⟨sub, hl, hrec⟩ := h
      simp only [gvapGo, hl]
      exact ih sub v hrec

theorem wfV_lookup_dict (B sub : List (String × Value)) (p : String)
    (hwf : wfV (Value.vdict B) = true) (hl : dlookup B p = some (Value.vdict sub)) :
    wfV (Value.vdict sub) = true := by
  rw [wfV_vdict] at hwf
  exact wfV_of_mem_wfD B p (Value.vdict sub) hwf (dlookup_mem B p _ hl)

theorem mergeLookup_right_nondict (o : Option Value) (v : Value) (h : v.isDict = false) :
    mergeLookup o (some v) = some v := by
  cases v with
  | vdict d => simp [Value.isDict] at h
  | vnull => cases o with
    | none => rfl
    | some va => cases va <;> rfl
  | vbool b => cases o with
    | none => rfl
    | some va => cases va <;> rfl
  | vint n => cases o with
    | none => rfl
    | some va => cases va <;> rfl
  | vstr st => cases o with
    | none => rfl
    | some va => cases va <;> rfl
  | vlist xs => cases o with
    | none => rfl
    | some va => cases va <;> rfl

theorem B_leaf_wins : ∀ (parts : List String) (A B : List (String × Value)) (v : Value),
    wfV (Value.vdict B) = true → isLeafAt B parts v →
    gvapGo (Value.vdict (deep_merge A B)) parts = v := by
  intro parts
  induction parts with
  | nil => intro A B v _ h; exact absurd h (by simp [isLeafAt])
  | cons p rest ih =>
    intro A B v hwf h
    have hnodup : (B.map Prod.fst).Nodup := wfD_keys_nodup B (by rw [← wfV_vdict]; exact hwf)
    cases rest with
    | nil =>
      obtain ⟨hl, hnd⟩ := h
      have hm := dlookup_deep_merge B A p hnodup
      rw [hl] at hm
      rw [mergeLookup_right_nondict (dlookup A p) v hnd] at hm
      simp [gvapGo, hm]
    | cons q qs =>
      obtain ⟨sub, hl, hrec⟩ := h
      have hm := dlookup_deep_merge B A p hnodup
      rw [hl] at hm
      have hwfsub := wfV_lookup_dict B sub p hwf hl
      cases hA : dlookup A p with
      | none =>
        rw [hA] at hm
        simp only [mergeLookup] at hm
        simp only [gvapGo, hm]
        exact isLeafAt_gvap (q :: qs) sub v hrec
      | some va =>
        rw [hA] at hm
        cases va with
        | vdict ra =>
          simp only [mergeLookup] at hm
          simp only [gvapGo, hm]
          exact ih ra sub v hwfsub hrec
        | vnull =>
          simp only [mergeLookup] at hm
          simp only [gvapGo, hm]
          exact isLeafAt_gvap (q :: qs) sub v hrec
        | vbool b =>
          simp only [mergeLookup] at hm
          simp only [gvapGo, hm]
          exact isLeafAt_gvap (q :: qs) sub v hrec
        | vint n =>
          simp only [mergeLookup] at hm
          simp only [gvapGo, hm]
          exact isLeafAt_gvap (q :: qs) sub v hrec
        | vstr st =>
          simp only [mergeLookup] at hm
          simp only [gvapGo, hm]
          exact isLeafAt_gvap (q :: qs) sub v hrec
        | vlist xs =>
          simp only [mergeLookup] at hm
          simp only [gvapGo, hm]
          exact isLeafAt_gvap (q :: qs) sub v hrec

theorem A_leaf_untouched : ∀ (parts : List String) (A B : List (String × Value)) (v : Value),
    wfV (Value.vdict B) = true → isLeafAt A parts v → untouched B parts →
    gvapGo (Value.vdict (deep_merge A B)) parts = v := by
  intro parts
  induction parts with
  | nil => intro A B v _ h _; exact absurd h (by simp [isLeafAt])
  | cons p rest ih =>
    intro A B v hwf hA hu
    have hnodup : (B.map Prod.fst).Nodup := wfD_keys_nodup B (by rw [← wfV_vdict]; exact hwf)
    have hm := dlookup_deep_merge B A p hnodup
    cases rest with
    | nil =>
      obtain ⟨hl, hnd⟩ := hA
      have hB : dlookup B p = none := hu
      rw [hl, hB] at hm
      have : mergeLookup (some v) none = some v := by cases v <;> rfl
      rw [this] at hm
      simp [gvapGo, hm]
    | cons q qs =>
      obtain ⟨subA, hl, hrec⟩ := hA
      rcases hu with hB | ⟨subB, hBl, hu'⟩
      · rw [hl, hB] at hm
        have : mergeLookup (some (Value.vdict subA)) none = some (Value.vdict subA) := rfl
        rw [this] at hm
        simp only [gvapGo, hm]
        exact isLeafAt_gvap (q :: qs) subA v hrec
      · rw [hl, hBl] at hm
        simp only [mergeLookup] at hm
        simp only [gvapGo, hm]
        exact ih subA subB v (wfV_lookup_dict B subB p hwf hBl) hrec hu'

theorem mergeLookup_left_nondict (va vb : Value) (h : va.isDict = false) :
    mergeLookup (some va) (some vb) = some vb := by
  cases va with
  | vdict d => simp [Value.isDict] at h
  | vnull => cases vb <;> rfl
  | vbool b => cases vb <;> rfl
  | vint n => cases vb <;> rfl
  | vstr st => cases vb <;> rfl
  | vlist xs => cases vb <;> rfl

/-- Claim C4, corrected.  For well-formed mappings (duplicate-free keys, as
any real Python dict) — input mutation cannot arise in this embedding, and
`deep_merge` deep-copies in Python:
(1) every leaf path of the override `B` appears in the merge result with
`B`'s value (in particular every leaf path present only in `B`);
(2) every leaf path of the base `A` that shares no prefix relation with any
leaf path of `B` (`untouched`: `B` holds nothing along the path) appears in
the result with `A`'s value — the claim as stated, without this condition,
is false, see the counterexample: an override scalar at a prefix of the path
deletes `A`'s leaf;
(3) a key mapped to a dict in both sides is merged recursively;
(4) a key of `B` mapped to a list or scalar on either side takes `B`'s value
wholesale. -/
theorem deep_merge_path_properties :
    (∀ (A B : List (String × Value)) (path : String) (v : Value),
      wfV (Value.vdict B) = true → isLeafAt B (pySplit path '.') v →
      get_value_at_path (deep_merge A B) path = v)
    ∧ (∀ (A B : List (String × Value)) (path : String) (v : Value),
      wfV (Value.vdict B) = true → isLeafAt A (pySplit path '.') v →
      untouched B (pySplit path '.') →
      get_value_at_path (deep_merge A B) path = v)
    ∧ (∀ (A B : List (String × Value)) (k : String) (da db : List (String × Value)),
      (B.map Prod.fst).Nodup → dlookup A k = some (Value.vdict da) →
      dlookup B k = some (Value.vdict db) →
      dlookup (deep_merge A B) k = some (Value.vdict (deep_merge da db)))
    ∧ (∀ (A B : List (String × Value)) (k : String) (vb : Value),
      (B.map Prod.fst).Nodup → dlookup B k = some vb →
      (vb.isDict = false ∨ ∀ va, dlookup A k = some va → va.isDict = false) →
      dlookup (deep_merge A B) k = some vb) := by
  refine ⟨?_, ?_, ?_, ?_⟩
  · intro A B path v hwf h
    exact B_leaf_wins (pySplit path '.') A B v hwf h
  · intro A B path v hwf hA hu
    exact A_leaf_untouched (pySplit path '.') A B v hwf hA hu
  · intro A B k da db hnodup hA hB
    rw [dlookup_deep_merge B A k hnodup, hA, hB]
    rfl
  · intro A B k vb hnodup hB hside
    rw [dlookup_deep_merge B A k hnodup, hB]
    rcases hside with hnd | hAside
    · exact mergeLookup_right_nondict (dlookup A k) vb hnd
    · cases hA : dlookup A k with
      | none => cases vb <;> rfl
      | some va => exact mergeLookup_left_nondict va vb (hAside va hA)

/-- Counterexample to claim C4 as stated: with `A = {"x": {"y": 1}}` and
`B = {"x": 5}`, the leaf path `"x.y"` is present only in `A` (by the code's
own leaf enumeration `get_all_paths`), yet `deep_merge(A, B) = {"x": 5}`
holds null, not 1, at `"x.y"`: the scalar override at the prefix `"x"`
replaces the whole subtree, deleting `A`'s leaf. -/
theorem deep_merge_A_only_leaf_lost :
    "x.y" ∈ get_all_paths [("x", Value.vdict [("y", Value.vint 1)])] ""
    ∧ "x.y" ∉ get_all_paths [("x", Value.vint 5)] ""
    ∧ get_value_at_path [("x", Value.vdict [("y", Value.vint 1)])] "x.y" = Value.vint 1
    ∧ deep_merge [("x", Value.vdict [("y", Value.vint 1)])] [("x", Value.vint 5)]
        = [("x", Value.vint 5)]
    ∧ get_value_at_path
        (deep_merge [("x", Value.vdict [("y", Value.vint 1)])] [("x", Value.vint 5)]) "x.y"
        = Value.vnull
    ∧ Value.vnull ≠ Value.vint 1 := by
  refine ⟨?_, ?_, ?_, ?_, ?_, ?_⟩ <;> decide

/-- Witness for C4 at concrete inputs, one per conjunct: an override leaf
wins; a base leaf untouched by the override survives; dicts on both sides
merge recursively; a scalar override replaces wholesale. -/
theorem deep_merge_path_properties_witness :
    get_value_at_path
        (deep_merge [("k", Value.vint 9)] [("x", Value.vdict [("y", Value.vint 2)])]) "x.y"
      = Value.vint 2
    ∧ get_value_at_path
        (deep_merge [("x", Value.vdict [("y", Value.vint 1)])] [("x", Value.vdict [("z", Value.vint 2)])])
        "x.y" = Value.vint 1
    ∧ dlookup
        (deep_merge [("x", Value.vdict [("y", Value.vint 1)])] [("x", Value.vdict [("z", Value.vint 2)])])
        "x"
      = some (Value.vdict (deep_merge [("y", Value.vint 1)] [("z", Value.vint 2)]))
    ∧ dlookup (deep_merge [("x", Value.vdict [("y", Value.vint 1)])] [("x", Value.vint 5)]) "x"
      = some (Value.vint 5) := by
  refine ⟨deep_merge_path_properties.1 [("k", Value.vint 9)]
      [("x", Value.vdict [("y", Value.vint 2)])] "x.y" (Value.vint 2) (by decide) ?_,
    deep_merge_path_properties.2.1 [("x", Value.vdict [("y", Value.vint 1)])]
      [("x", Value.vdict [("z", Value.vint 2)])] "x.y" (Value.vint 1) (by decide) ?_ ?_,
    deep_merge_path_properties.2.2.1 [("x", Value.vdict [("y", Value.vint 1)])]
      [("x", Value.vdict [("z", Value.vint 2)])] "x" [("y", Value.vint 1)]
      [("z", Value.vint 2)] (by decide) (by decide) (by decide),
    deep_merge_path_properties.2.2.2 [("x", Value.vdict [("y", Value.vint 1)])]
      [("x", Value.vint 5)] "x" (Value.vint 5) (by decide) (by decide)
      (Or.inl (by decide))⟩
  · rw [show pySplit "x.y" '.' = ["x", "y"] from by decide]
    exact ⟨[("y", Value.vint 2)], by decide, by decide, by decide⟩
  · rw [show pySplit "x.y" '.' = ["x", "y"] from by decide]
    exact ⟨[("y", Value.vint 1)], by decide, by decide, by decide⟩
  · rw [show pySplit "x.y" '.' = ["x", "y"] from by decide]
    exact Or.inr ⟨[("z", Value.vint 2)], by decide,
      (by decide : dlookup [("z", Value.vint 2)] "y" = none)⟩

theorem digitChar_isDigit (d : Nat) : (digitChar d).isDigit = true := by
  unfold digitChar
  split <;> decide

theorem digitVal_digitChar (d : Nat) (h : d < 10) : digitVal (digitChar d) = d := by
  interval_cases d <;> decide

theorem natCharsF_stable : ∀ (n f g : Nat), n < f → n < g →
    natCharsF f n = natCharsF g n := by
  intro n
  induction n using Nat.strong_induction_on with
  | _ n ih =>
    intro f g hf hg
    cases f with
    | zero => omega
    | succ f' =>
      cases g with
      | zero => omega
      | succ g' =>
        simp only [natCharsF]
        by_cases h10 : n < 10
        · simp [h10]
        · simp only [if_neg h10]
          have hlt : n / 10 < n := Nat.div_lt_self (by omega) (by omega)
          rw [ih (n / 10) hlt f' g' (by omega) (by omega)]

theorem natChars_unfold (n : Nat) :
    natChars n = if n < 10 then [digitChar n]
                 else natChars (n / 10) ++ [digitChar (n % 10)] := by
  by_cases h10 : n < 10
  · simp [natChars, natCharsF, h10]
  · rw [if_neg h10]
    show natCharsF (n + 1) n = _
    rw [show natCharsF (n + 1) n = natCharsF n (n / 10) ++ [digitChar (n % 10)] from by
      simp [natCharsF, h10]]
    have hlt : n / 10 < n := Nat.div_lt_self (by omega) (by omega)
    have := natCharsF_stable (n / 10) n (n / 10 + 1) hlt (by omega)
    rw [this]
    rfl

theorem natChars_ne_nil (n : Nat) : natChars n ≠ [] := by
  rw [natChars_unfold]
  by_cases h10 : n < 10 <;> simp [h10]

theorem natChars_all_digits : ∀ (n : Nat) (c : Char), c ∈ natChars n → c.isDigit = true := by
  intro n
  induction n using Nat.strong_induction_on with
  | _ n ih =>
    intro c hc
    rw [natChars_unfold] at hc
    by_cases h10 : n < 10
    · rw [if_pos h10] at hc
      simp only [List.mem_singleton] at hc
      subst hc
      exact digitChar_isDigit n
    · rw [if_neg h10] at hc
      rcases List.mem_append.mp hc with h | h
      · exact ih (n / 10) (Nat.div_lt_self (by omega) (by omega)) c h
      · simp only [List.mem_singleton] at h
        subst h
        exact digitChar_isDigit (n % 10)

theorem digitsToNat_append_one (l : List Char) (c : Char) :
    digitsToNat (l ++ [c]) = 10 * digitsToNat l + digitVal c := by
  simp [digitsToNat, List.foldl_append]

theorem digitsToNat_natChars : ∀ (n : Nat), digitsToNat (natChars n) = n := by
  intro n
  induction n using Nat.strong_induction_on with
  | _ n ih =>
    rw [natChars_unfold]
    by_cases h10 : n < 10
    · simp only [if_pos h10, digitsToNat, List.foldl_cons, List.foldl_nil]
      rw [Nat.mul_zero, Nat.zero_add]
      exact digitVal_digitChar n h10
    · rw [if_neg h10, digitsToNat_append_one,
        ih (n / 10) (Nat.div_lt_self (by omega) (by omega)),
        digitVal_digitChar (n % 10) (by omega)]
      omega

theorem takeWhile_append_all {p : Char → Bool} : ∀ (l r : List Char),
    (∀ c ∈ l, p c = true) → (∀ c, r.head? = some c → p c = false) →
    (l ++ r).takeWhile p = l ∧ (l ++ r).dropWhile p = r := by
  intro l
  induction l with
  | nil =>
    intro r _ hr
    cases r with
    | nil => simp
    | cons c t =>
      have := hr c (by simp)
      simp [List.takeWhile, List.dropWhile, this]
  | cons c t ih =>
    intro r hall hr
    have hc : p c = true := hall c (by simp)
    have iht := ih r (fun x hx => hall x (by simp [hx])) hr
    simp [List.takeWhile, List.dropWhile, hc, iht.1, iht.2]

theorem parseNat_natChars (n : Nat) (rest : List Char) (hrest : goodRest rest) :
    parseNat (natChars n ++ rest) = some (n, rest) := by
  obtain ⟨htake, hdrop⟩ := takeWhile_append_all (natChars n) rest
    (natChars_all_digits n) (fun c hc => hrest c hc)
  simp only [parseNat, htake, hdrop, digitsToNat_natChars]
  have := natChars_ne_nil n
  simp [List.isEmpty_iff, this]

theorem parseStrL_escChars (q : Char) (hq : q = '\'' ∨ q = '"') : ∀ (s rest : List Char),
    parseStrL q (escChars q s ++ q :: rest) = some (s, rest) := by
  intro s
  induction s with
  | nil =>
    intro rest
    have hq1 : q ≠ '\\' := by rcases hq with h | h <;> subst h <;> decide
    show parseStrL q (q :: rest) = some ([], rest)
    unfold parseStrL
    simp [hq1]
  | cons c t ih =>
    intro rest
    by_cases hesc : c = '\\' ∨ c = q
    · have hstep : escChars q (c :: t) = '\\' :: c :: escChars q t := by
        simp [escChars, hesc]
      rw [show escChars q (c :: t) ++ q :: rest = '\\' :: c :: (escChars q t ++ q :: rest) from by
        rw [hstep]; rfl]
      unfold parseStrL
      simp [ih rest]
    · push_neg at hesc
      have hstep : escChars q (c :: t) = c :: escChars q t := by
        simp [escChars, hesc.1, hesc.2]
      rw [show escChars q (c :: t) ++ q :: rest = c :: (escChars q t ++ q :: rest) from by
        rw [hstep]; rfl]
      unfold parseStrL
      simp [hesc.1, hesc.2, ih rest]

theorem String_mk_data (s : String) : String.mk s.data = s := rfl

theorem fsize_pos : ∀ v : Value, 1 ≤ fsize v := by
  intro v
  cases v <;> simp [fsize]

theorem esize_pos : ∀ xs : List Value, 1 ≤ esize xs := by
  intro xs
  cases xs with
  | nil => simp [esize]
  | cons x rest => simp only [esize]; omega

theorem dsize_pos : ∀ d : List (String × Value), 1 ≤ dsize d := by
  intro d
  cases d with
  | nil => simp [dsize]
  | cons kv rest => obtain ⟨k, v⟩ := kv; simp only [dsize]; omega

theorem isDigit_not_special (c : Char) (h : c.isDigit = true) :
    c ≠ 'N' ∧ c ≠ 'T' ∧ c ≠ 'F' ∧ c ≠ '-' ∧ c ≠ '[' ∧ c ≠ '{' ∧ c ≠ '\'' ∧ c ≠ '"'
    ∧ c ≠ ']' ∧ c ≠ '}' ∧ c ≠ ',' := by
  refine ⟨?_, ?_, ?_, ?_, ?_, ?_, ?_, ?_, ?_, ?_, ?_⟩ <;>
    (intro he; subst he; revert h; decide)

theorem natChars_cons (n : Nat) :
    ∃ c cs, natChars n = c :: cs ∧ c.isDigit = true := by
  cases hn : natChars n with
  | nil => exact absurd hn (natChars_ne_nil n)
  | cons c cs =>
    exact ⟨c, cs, rfl, natChars_all_digits n c (by rw [hn]; simp)⟩

theorem quoteChars_cons (s : List Char) :
    ∃ q t, quoteChars s = q :: t ∧ (q = '\'' ∨ q = '"') := by
  by_cases h : '\'' ∈ s ∧ '"' ∉ s
  · exact ⟨'"', escChars '"' s ++ ['"'], by simp [quoteChars, h], Or.inr rfl⟩
  · exact ⟨'\'', escChars '\'' s ++ ['\''], by simp [quoteChars, h], Or.inl rfl⟩

theorem reprChars_cons (v : Value) :
    ∃ c cs, reprChars v = c :: cs ∧ c ≠ ']' ∧ c ≠ '}' := by
  cases v with
  | vnull => exact ⟨'N', _, rfl, by decide, by decide⟩
  | vbool b => cases b with
    | true => exact ⟨'T', _, rfl, by decide, by decide⟩
    | false => exact ⟨'F', _, rfl, by decide, by decide⟩
  | vint n =>
    by_cases hneg : n < 0
    · exact ⟨'-', natChars n.natAbs, by simp [reprChars, intChars, hneg], by decide, by decide⟩
    · obtain ⟨c, cs, hnc, hcd⟩ := natChars_cons n.toNat
      have hsp := isDigit_not_special c hcd
      exact ⟨c, cs, by simp [reprChars, intChars, hneg, hnc], hsp.2.2.2.2.2.2.2.2.1,
        hsp.2.2.2.2.2.2.2.2.2.1⟩
  | vstr s =>
    obtain ⟨q, t, hq, hqor⟩ := quoteChars_cons s.data
    refine ⟨q, t, by simp [reprChars, hq], ?_, ?_⟩ <;>
      (rcases hqor with h | h <;> subst h <;> decide)
  | vlist xs => exact ⟨'[', _, rfl, by decide, by decide⟩
  | vdict d => exact ⟨'{', _, rfl, by decide, by decide⟩

theorem parse_roundtrip : ∀ f : Nat,
    (∀ (v : Value) (rest : List Char), fsize v ≤ f → goodRest rest →
      parseV f (reprChars v ++ rest) = some (v, rest))
    ∧ (∀ (xs : List Value) (rest : List Char), xs ≠ [] → esize xs ≤ f →
      parseElems f (reprList xs ++ ']' :: rest) = some (xs, rest))
    ∧ (∀ (d : List (String × Value)) (rest : List Char), d ≠ [] → dsize d ≤ f →
      parseEntries f (reprDict d ++ '}' :: rest) = some (d, rest)) := by
  intro f
  induction f with
  | zero =>
    refine ⟨?_, ?_, ?_⟩
    · intro v rest hs _
      have := fsize_pos v
      omega
    · intro xs rest _ hs
      have := esize_pos xs
      omega
    · intro d rest _ hs
      have := dsize_pos d
      omega
  | succ f ihf =>
    obtain ⟨ihv, ihe, ihd⟩ := ihf
    refine ⟨?_, ?_, ?_⟩
    · intro v rest hs hr
      cases v with
      | vnull =>
        show parseV (f + 1) ('N' :: 'o' :: 'n' :: 'e' :: rest) = some (Value.vnull, rest)
        unfold parseV
        simp [expectChars]
      | vbool b =>
        cases b with
        | true =>
          show parseV (f + 1) ('T' :: 'r' :: 'u' :: 'e' :: rest)
              = some (Value.vbool true, rest)
          unfold parseV
          simp [expectChars]
        | false =>
          show parseV (f + 1) ('F' :: 'a' :: 'l' :: 's' :: 'e' :: rest)
              = some (Value.vbool false, rest)
          unfold parseV
          simp [expectChars]
      | vint n =>
        by_cases hneg : n < 0
        · have hrepr : reprChars (Value.vint n) ++ rest
              = '-' :: (natChars n.natAbs ++ rest) := by
            simp [reprChars, intChars, hneg]
          rw [hrepr]
          have hstep : parseV (f + 1) ('-' :: (natChars n.natAbs ++ rest))
              = (parseNat (natChars n.natAbs ++ rest)).map
                  fun nr => (Value.vint (-(nr.1 : Int)), nr.2) := by
            unfold parseV
            simp
          rw [hstep, parseNat_natChars n.natAbs rest hr]
          have hd : ((n.natAbs : Int)) = -n := by
            rcases Int.natAbs_eq n with h | h
            · have : (0 : Int) ≤ (n.natAbs : Int) := Int.natCast_nonneg _
              omega
            · omega
          show some (Value.vint (-(n.natAbs : Int)), rest) = some (Value.vint n, rest)
          rw [hd, neg_neg]
        · obtain ⟨c, cs, hnc, hcd⟩ := natChars_cons n.toNat
          have hsp := isDigit_not_special c hcd
          have hrepr : reprChars (Value.vint n) ++ rest = c :: (cs ++ rest) := by
            simp [reprChars, intChars, hneg, hnc]
          rw [hrepr]
          have hstep : parseV (f + 1) (c :: (cs ++ rest))
              = (parseNat (c :: (cs ++ rest))).map
                  fun nr => (Value.vint (nr.1 : Int), nr.2) := by
            unfold parseV
            simp [hsp.1, hsp.2.1, hsp.2.2.1, hsp.2.2.2.1, hsp.2.2.2.2.1, hsp.2.2.2.2.2.1,
              hsp.2.2.2.2.2.2.1, hsp.2.2.2.2.2.2.2.1, hcd]
          rw [hstep, show c :: (cs ++ rest) = natChars n.toNat ++ rest from by rw [hnc]; rfl,
            parseNat_natChars n.toNat rest hr]
          show some (Value.vint ((n.toNat : Nat) : Int), rest) = some (Value.vint n, rest)
          rw [Int.toNat_of_nonneg (by omega)]
      | vstr s =>
        by_cases hq : '\'' ∈ s.data ∧ '"' ∉ s.data
        · have hrepr : reprChars (Value.vstr s) ++ rest
              = '"' :: (escChars '"' s.data ++ '"' :: rest) := by
            simp [reprChars, quoteChars, hq]
          rw [hrepr]
          unfold parseV
          simp [parseStrL_escChars '"' (Or.inr rfl) s.data rest, String_mk_data]
        · have hrepr : reprChars (Value.vstr s) ++ rest
              = '\'' :: (escChars '\'' s.data ++ '\'' :: rest) := by
            simp [reprChars, quoteChars, hq]
          rw [hrepr]
          unfold parseV
          simp [parseStrL_escChars '\'' (Or.inl rfl) s.data rest, String_mk_data]
      | vlist xs =>
        cases xs with
        | nil =>
          show parseV (f + 1) ('[' :: ']' :: rest) = some (Value.vlist [], rest)
          unfold parseV
          simp
        | cons x xr =>
          obtain ⟨c, cs, hxc, hne1, hne2⟩ := reprChars_cons x
          have hlist : reprChars (Value.vlist (x :: xr)) ++ rest
              = '[' :: (reprList (x :: xr) ++ ']' :: rest) := by
            show ('[' :: reprList (x :: xr) ++ [']']) ++ rest = _
            simp
          rw [hlist]
          unfold parseV
          obtain ⟨tl, htl⟩ : ∃ tl, reprList (x :: xr) = reprChars x ++ tl := ⟨_, rfl⟩
          have hw : (reprList (x :: xr) ++ ']' :: rest).head? = some c := by
            rw [htl, hxc]
            rfl
          have hesz : esize (x :: xr) ≤ f := by
            simp only [fsize] at hs
            omega
          simp [hw, hne1, ihe (x :: xr) rest (by simp) hesz]
      | vdict d =>
        cases d with
        | nil =>
          show parseV (f + 1) ('{' :: '}' :: rest) = some (Value.vdict [], rest)
          unfold parseV
          simp
        | cons kv dr =>
          obtain ⟨k, v⟩ := kv
          obtain ⟨q, t, hqc, hqor⟩ := quoteChars_cons k.data
          have hdict : reprChars (Value.vdict ((k, v) :: dr)) ++ rest
              = '{' :: (reprDict ((k, v) :: dr) ++ '}' :: rest) := by
            show ('{' :: reprDict ((k, v) :: dr) ++ ['}']) ++ rest = _
            simp
          rw [hdict]
          unfold parseV
          have hqne : q ≠ '}' := by
            rcases hqor with h | h <;> subst h <;> decide
          have hw : (reprDict ((k, v) :: dr) ++ '}' :: rest).head? = some q := by
            simp only [reprDict]
            rw [hqc]
            rfl
          have hdsz : dsize ((k, v) :: dr) ≤ f := by
            simp only [fsize] at hs
            omega
          simp [hw, hqne, ihd ((k, v) :: dr) rest (by simp) hdsz]
    · intro xs rest hne hs
      cases xs with
      | nil => exact absurd rfl hne
      | cons x xr =>
        cases xr with
        | nil =>
          have hrl : reprList [x] = reprChars x := by
            show reprChars x ++ [] = reprChars x
            simp
          rw [hrl]
          unfold parseElems
          have hfs : fsize x ≤ f := by
            simp only [esize] at hs
            have := esize_pos ([] : List Value)
            omega
          have hv := ihv x (']' :: rest) hfs (by intro c hc; simp at hc; subst hc; decide)
          simp [hv]
        | cons y yr =>
          have hrl : reprList (x :: y :: yr) ++ ']' :: rest
              = reprChars x ++ (',' :: ' ' :: (reprList (y :: yr) ++ ']' :: rest)) := by
            show (reprChars x ++ (',' :: ' ' :: reprList (y :: yr))) ++ ']' :: rest = _
            simp
          rw [hrl]
          unfold parseElems
          have hfs : fsize x ≤ f := by
            simp only [esize] at hs
            have := esize_pos (y :: yr)
            omega
          have hesz : esize (y :: yr) ≤ f := by
            simp only [esize] at hs ⊢
            have := fsize_pos x
            omega
          have hv := ihv x (',' :: ' ' :: (reprList (y :: yr) ++ ']' :: rest)) hfs
            (by intro c hc; simp at hc; subst hc; decide)
          have he := ihe (y :: yr) rest (by simp) hesz
          simp [hv, he]
    · intro d rest hne hs
      cases d with
      | nil => exact absurd rfl hne
      | cons kv dr =>
        obtain ⟨k, v⟩ := kv
        have hfs : fsize v ≤ f := by
          simp only [dsize] at hs
          have := dsize_pos dr
          omega
        by_cases hqk : '\'' ∈ k.data ∧ '"' ∉ k.data
        · have hqc : quoteChars k.data = '"' :: escChars '"' k.data ++ ['"'] := by
            simp [quoteChars, hqk]
          cases dr with
          | nil =>
            have hshape : reprDict [(k, v)] ++ '}' :: rest
                = '"' :: (escChars '"' k.data ++ '"' ::
                    (':' :: ' ' :: (reprChars v ++ '}' :: rest))) := by
              simp only [reprDict]
              rw [hqc]
              simp
            rw [hshape]
            unfold parseEntries
            have hv := ihv v ('}' :: rest) hfs (by intro c hc; simp at hc; subst hc; decide)
            simp [parseStrL_escChars '"' (Or.inr rfl) k.data, hv, String_mk_data]
          | cons e dr' =>
            have hshape : reprDict ((k, v) :: e :: dr') ++ '}' :: rest
                = '"' :: (escChars '"' k.data ++ '"' ::
                    (':' :: ' ' :: (reprChars v ++
                      ',' :: ' ' :: (reprDict (e :: dr') ++ '}' :: rest)))) := by
              simp only [reprDict]
              rw [hqc]
              simp
            rw [hshape]
            unfold parseEntries
            have hdsz : dsize (e :: dr') ≤ f := by
              simp only [dsize] at hs ⊢
              have := fsize_pos v
              omega
            have hv := ihv v (',' :: ' ' :: (reprDict (e :: dr') ++ '}' :: rest)) hfs
              (by intro c hc; simp at hc; subst hc; decide)
            have hd := ihd (e :: dr') rest (by simp) hdsz
            simp [parseStrL_escChars '"' (Or.inr rfl) k.data, hv, hd, String_mk_data]
        · have hqc : quoteChars k.data = '\'' :: escChars '\'' k.data ++ ['\''] := by
            simp [quoteChars, hqk]
          cases dr with
          | nil =>
            have hshape : reprDict [(k, v)] ++ '}' :: rest
                = '\'' :: (escChars '\'' k.data ++ '\'' ::
                    (':' :: ' ' :: (reprChars v ++ '}' :: rest))) := by
              simp only [reprDict]
              rw [hqc]
              simp
            rw [hshape]
            unfold parseEntries
            have hv := ihv v ('}' :: rest) hfs (by intro c hc; simp at hc; subst hc; decide)
            simp [parseStrL_escChars '\'' (Or.inl rfl) k.data, hv, String_mk_data]
          | cons e dr' =>
            have hshape : reprDict ((k, v) :: e :: dr') ++ '}' :: rest
                = '\'' :: (escChars '\'' k.data ++ '\'' ::
                    (':' :: ' ' :: (reprChars v ++
                      ',' :: ' ' :: (reprDict (e :: dr') ++ '}' :: rest)))) := by
              simp only [reprDict]
              rw [hqc]
              simp
            rw [hshape]
            unfold parseEntries
            have hdsz : dsize (e :: dr') ≤ f := by
              simp only [dsize] at hs ⊢
              have := fsize_pos v
              omega
            have hv := ihv v (',' :: ' ' :: (reprDict (e :: dr') ++ '}' :: rest)) hfs
              (by intro c hc; simp at hc; subst hc; decide)
            have hd := ihd (e :: dr') rest (by simp) hdsz
            simp [parseStrL_escChars '\'' (Or.inl rfl) k.data, hv, hd, String_mk_data]

theorem reprChars_inj (v w : Value) (h : reprChars v = reprChars w) : v = w := by
  have hgr : goodRest [] := by intro c hc; simp at hc
  have h1 := (parse_roundtrip (max (fsize v) (fsize w))).1 v [] (le_max_left _ _) hgr
  have h2 := (parse_roundtrip (max (fsize v) (fsize w))).1 w [] (le_max_right _ _) hgr
  rw [List.append_nil] at h1 h2
  rw [h] at h1
  have := h1.symm.trans h2
  simp only [Option.some.injEq, Prod.mk.injEq] at this
  exact this.1

theorem pyStr_vstr (s : String) : pyStr (Value.vstr s) = s := String_mk_data s

theorem pyStr_inj_nonstr (v w : Value) (hv : v.isStr = false) (hw : w.isStr = false)
    (h : pyStr v = pyStr w) : v = w := by
  have hpc : pyStrChars v = pyStrChars w := congrArg String.data h
  have hrv : pyStrChars v = reprChars v := by
    cases v with
    | vstr s => simp [Value.isStr] at hv
    | vnull => rfl
    | vbool b => rfl
    | vint n => rfl
    | vlist xs => rfl
    | vdict d => rfl
  have hrw : pyStrChars w = reprChars w := by
    cases w with
    | vstr s => simp [Value.isStr] at hw
    | vnull => rfl
    | vbool b => rfl
    | vint n => rfl
    | vlist xs => rfl
    | vdict d => rfl
  exact reprChars_inj v w (hrv ▸ hrw ▸ hpc)

theorem pyStr_eq_of_isStr (v w : Value) (hv : v.isStr = true) (hw : w.isStr = true)
    (h : pyStr v = pyStr w) : v = w := by
  obtain ⟨a, rfl⟩ : ∃ a, v = Value.vstr a := by
    cases v <;> simp [Value.isStr] at hv <;> exact ⟨_, rfl⟩
  obtain ⟨b, rfl⟩ : ∃ b, w = Value.vstr b := by
    cases w <;> simp [Value.isStr] at hw <;> exact ⟨_, rfl⟩
  rw [pyStr_vstr, pyStr_vstr] at h
  rw [h]

theorem pyStr_three_distinct (v0 v1 v2 : Value)
    (h01 : v0 ≠ v1) (h02 : v0 ≠ v2) (h12 : v1 ≠ v2) :
    ¬(pyStr v0 = pyStr v1 ∧ pyStr v1 = pyStr v2) := by
  rintro ⟨e01, e12⟩
  have e02 := e01.trans e12
  by_cases s0 : v0.isStr
  · by_cases s1 : v1.isStr
    · exact h01 (pyStr_eq_of_isStr v0 v1 s0 s1 e01)
    · by_cases s2 : v2.isStr
      · exact h02 (pyStr_eq_of_isStr v0 v2 s0 s2 e02)
      · exact h12 (pyStr_inj_nonstr v1 v2 (by simp [s1]) (by simp [s2]) e12)
  · by_cases s1 : v1.isStr
    · by_cases s2 : v2.isStr
      · exact h12 (pyStr_eq_of_isStr v1 v2 s1 s2 e12)
      · exact h02 (pyStr_inj_nonstr v0 v2 (by simp [s0]) (by simp [s2]) e02)
    · exact h01 (pyStr_inj_nonstr v0 v1 (by simp [s0]) (by simp [s1]) e01)

theorem dedup_three_lt (a b c : String) (h : ¬(a = b ∧ b = c)) :
    1 < ([a, b, c].dedup).length := by
  rw [← List.card_toFinset]
  rw [Finset.one_lt_card]
  by_cases hab : a = b
  · have hbc : b ≠ c := fun he => h ⟨hab, he⟩
    exact ⟨b, by simp, c, by simp, hbc⟩
  · exact ⟨a, by simp, b, by simp, hab⟩

theorem gap_ab (v : Value) (h : Value.isDict v = false) :
    get_all_paths [("a", Value.vdict [("b", v)])] "" = ["a.b"] := by
  cases v with
  | vdict d => simp [Value.isDict] at h
  | vnull => rfl
  | vbool b => rfl
  | vint n => rfl
  | vstr s => rfl
  | vlist xs => rfl

theorem gvap_ab (v : Value) :
    get_value_at_path [("a", Value.vdict [("b", v)])] "a.b" = v := rfl

theorem svap_ab (x : Value) :
    set_value_at_path [] "a.b" x = some [("a", Value.vdict [("b", x)])] := rfl

/-- **C3** (amended: the three values non-null). For any three config
sources with priorities 0, 10 and 20 that all define the leaf path `"a.b"`
with pairwise distinct non-null values, `detect_conflicts` returns exactly
one Conflict, that Conflict is for path `"a.b"` with resolution strategy
`use_highest_priority` and carries all three sources and values, and the
merged config's value at `"a.b"` equals the value from the priority-20
source. -/
theorem detect_conflicts_three_sources (v0 v1 v2 : Value)
    (hd0 : Value.isDict v0 = false) (hd1 : Value.isDict v1 = false)
    (hd2 : Value.isDict v2 = false)
    (hn0 : v0 ≠ Value.vnull) (hn1 : v1 ≠ Value.vnull) (hn2 : v2 ≠ Value.vnull)
    (h01 : v0 ≠ v1) (h02 : v0 ≠ v2) (h12 : v1 ≠ v2) :
    detect_conflicts
      [⟨"s0", 0, [("a", Value.vdict [("b", v0)])]⟩,
       ⟨"s1", 10, [("a", Value.vdict [("b", v1)])]⟩,
       ⟨"s2", 20, [("a", Value.vdict [("b", v2)])]⟩] =
      some ([("a", Value.vdict [("b", v2)])],
            [⟨"a.b", ["s0", "s1", "s2"], [v0, v1, v2], "use_highest_priority"⟩]) ∧
    get_value_at_path [("a", Value.vdict [("b", v2)])] "a.b" = v2 := by
  refine ⟨?_, gvap_ab v2⟩
  have hvbs : values_by_source
      [⟨"s0", 0, [("a", Value.vdict [("b", v0)])]⟩,
       ⟨"s1", 10, [("a", Value.vdict [("b", v1)])]⟩,
       ⟨"s2", 20, [("a", Value.vdict [("b", v2)])]⟩] "a.b" =
      [⟨0, v0, "s0"⟩, ⟨10, v1, "s1"⟩, ⟨20, v2, "s2"⟩] := by
    simp [values_by_source, gvap_ab, hn0, hn1, hn2]
  have hmax : pymaxBy ⟨0, v0, "s0"⟩ [⟨10, v1, "s1"⟩, ⟨20, v2, "s2"⟩] =
      ⟨20, v2, "s2"⟩ := by
    simp only [pymaxBy, List.foldl]
    norm_num
  have huniq : 1 < ((([⟨0, v0, "s0"⟩, ⟨10, v1, "s1"⟩, ⟨20, v2, "s2"⟩] :
      List VEntry).map fun e => pyStr e.value).dedup).length := by
    have h3 := pyStr_three_distinct v0 v1 v2 h01 h02 h12
    have h4 := dedup_three_lt (pyStr v0) (pyStr v1) (pyStr v2) h3
    simpa using h4
  simp only [detect_conflicts]
  rw [show (([⟨"s0", 0, [("a", Value.vdict [("b", v0)])]⟩,
       ⟨"s1", 10, [("a", Value.vdict [("b", v1)])]⟩,
       ⟨"s2", 20, [("a", Value.vdict [("b", v2)])]⟩] : List CSource).foldl
      (fun acc ci => acc ++ get_all_paths ci.config "") []) = ["a.b", "a.b", "a.b"]
    from by simp [gap_ab v0 hd0, gap_ab v1 hd1, gap_ab v2 hd2]]
  rw [show (["a.b", "a.b", "a.b"] : List String).dedup = ["a.b"] from by decide]
  simp only [List.foldl]
  simp only [conflictStep]
  rw [hvbs]
  rw [if_pos huniq]
  simp [hmax, svap_ab]

/-- Counterexample to C3 as stated: the sources hold 1, 2 and null at
`"a.b"` — three pairwise distinct values, so the claim predicts one
Conflict over all three sources with the merged value equal to the
priority-20 source's value (null).  In the code `values_by_source` skips
null values (`if value is not None`), so the Conflict lists only the two
lower-priority sources and the merged value is the priority-10 value 2,
not the priority-20 value. -/
theorem detect_conflicts_null_value_counterexample :
    detect_conflicts
      [⟨"s0", 0, [("a", Value.vdict [("b", Value.vint 1)])]⟩,
       ⟨"s1", 10, [("a", Value.vdict [("b", Value.vint 2)])]⟩,
       ⟨"s2", 20, [("a", Value.vdict [("b", Value.vnull)])]⟩] =
      some ([("a", Value.vdict [("b", Value.vint 2)])],
            [⟨"a.b", ["s0", "s1"], [Value.vint 1, Value.vint 2],
              "use_highest_priority"⟩]) ∧
    (Value.vint 2 : Value) ≠ Value.vnull := by
  decide

/-- Witness for `detect_conflicts_three_sources` at the values 1, 2, 3. -/
theorem detect_conflicts_three_sources_witness :
    detect_conflicts
      [⟨"s0", 0, [("a", Value.vdict [("b", Value.vint 1)])]⟩,
       ⟨"s1", 10, [("a", Value.vdict [("b", Value.vint 2)])]⟩,
       ⟨"s2", 20, [("a", Value.vdict [("b", Value.vint 3)])]⟩] =
      some ([("a", Value.vdict [("b", Value.vint 3)])],
            [⟨"a.b", ["s0", "s1", "s2"], [Value.vint 1, Value.vint 2, Value.vint 3],
              "use_highest_priority"⟩]) ∧
    get_value_at_path [("a", Value.vdict [("b", Value.vint 3)])] "a.b" =
      Value.vint 3 :=
  detect_conflicts_three_sources (Value.vint 1) (Value.vint 2) (Value.vint 3)
    (by decide) (by decide) (by decide) (by decide) (by decide) (by decide)
    (by decide) (by decide) (by decide)
